import Mathlib

/-!
Verification of the Redis coordination layer of the product service
(`app/infrastructure/redis/factory.py`).

The development shallowly embeds the store semantics and the client layer:

* `Store` models one Redis database as a partial map from keys to string
  values.  TTLs are carried by the wire calls (`SET ... NX EX ttl`) but no
  expiry step is modelled: every claim below is scoped to histories in which
  no key expires.
* `luaDeleteIfEqual` is the `delete_if_equal` Lua script executed server
  side (atomically) by `RedisClient.delete_if_equal`.
* `RedisDistributedLock` with `acquire`, `spin_acquire` (poll loop over an
  environment giving the store contents observed at each poll) and
  `release` embeds the lock class.
* A JSON value type `PyVal` with `json_dumps` / `json_loads` embeds the
  serialisation the facade applies to structured (mapping/sequence) values.
* `RState` embeds the string and hash keyspaces used by the facade
  operations `set_obj`/`get` and `hset`/`hget`.
* Facade operations are embedded as functions from the outcome of the
  underlying client call (an `Except` value: `.error` models a raised
  store exception) to the value the operation returns; this captures the
  per-operation `try`/`except` wrappers.
* `RStream` embeds one Redis stream with consumer groups;
  `queue_consumer`, `requeue_msg`, `queue_product` and `queue_info` are
  embedded with an explicit transient-error oracle `errAt` giving, per
  attempt, whether the underlying call raises.
-/

/-- One Redis database keyspace: a partial map from keys to string values. -/
def Store : Type := String → Option String

/-- Pointwise update of a store at one key. -/
def Store.update (s : Store) (k : String) (v : Option String) : Store :=
  fun q => if q = k then v else s q

/-- The `delete_if_equal` Lua script from `RedisClient._get_script_content`:
read the key; if a value is present and equals the argument, delete the key
and return 1, otherwise return 0.  It runs server side as one atomic step. -/
def luaDeleteIfEqual (s : Store) (key expected : String) : Store × Bool :=
  match s key with
  | some cur => if cur = expected then (s.update key none, true) else (s, false)
  | none => (s, false)

/-- Modelled from the spec: `compareAndDelete` reads the key and, if its
current value equals the expected value, deletes it and returns 1, else
returns 0 leaving the store unchanged.  Used as the specification side of
the refinement stated in claim C2. -/
def specCompareAndDelete (s : Store) (key expected : String) : Store × Bool :=
  if s key = some expected then (s.update key none, true) else (s, false)

/-- The conditional set `SET key value NX EX ttl`: writes the key and
succeeds exactly when the key is absent.  The `EX` expiry is not modelled
(no expiry occurs in the claims' scenarios). -/
def setNX (s : Store) (key value : String) : Store × Bool :=
  match s key with
  | some _ => (s, false)
  | none => (s.update key (some value), true)

/-- State of one `RedisDistributedLock` instance: lock key, token
(`lock_value`, a UUID unless caller supplied), hold TTL, blocking timeout,
and the held mark (the source field `self` dot acquired, written `acquired` here). -/
structure RedisDistributedLock where
  lock_key : String
  lock_value : String
  timeout : Nat
  blocking_timeout : Nat
  acquired : Bool

/-- The method `RedisDistributedLock.acquire`: first run the
`delete_if_equal` script with this instance's own token (defensive
cleanup), then one conditional set; the result of that set is returned and
stored in `acquired`. -/
def RedisDistributedLock.acquire (l : RedisDistributedLock) (s : Store) :
    Store × RedisDistributedLock × Bool :=
  let s1 := (luaDeleteIfEqual s l.lock_key l.lock_value).1
  let r := setNX s1 l.lock_key l.lock_value
  (r.1, { l with acquired := r.2 }, r.2)

/-- The method `RedisDistributedLock.release`: a no-op returning true when
the instance is not marked held; otherwise run the `delete_if_equal` script
with this instance's token, clear the held mark, and return the script's
result. -/
def RedisDistributedLock.release (l : RedisDistributedLock) (s : Store) :
    Store × RedisDistributedLock × Bool :=
  if l.acquired then
    let r := luaDeleteIfEqual s l.lock_key l.lock_value
    (r.1, { l with acquired := false }, r.2)
  else (s, l, true)

/-- Global state of `n` lock instances racing `acquire()` on one key:
the shared store, how many of its two store round-trips (cleanup script,
conditional set) each instance has executed, and each instance's result. -/
structure AcqState (n : Nat) where
  store : Store
  stepped : Fin n → Nat
  result : Fin n → Option Bool

/-- Initial racing state: no instance has started, store as given. -/
def initAcqState (n : Nat) (s : Store) : AcqState n :=
  ⟨s, fun _ => 0, fun _ => none⟩

/-- One scheduler step: instance `i` executes its next store round-trip of
`acquire()` (first the cleanup script, then the conditional set, whose
result is recorded); an instance that already finished does nothing. -/
def acqStep {n : Nat} (key : String) (tok : Fin n → String) (σ : AcqState n)
    (i : Fin n) : AcqState n :=
  if σ.stepped i = 0 then
    { σ with
      store := (luaDeleteIfEqual σ.store key (tok i)).1,
      stepped := fun j => if j = i then 1 else σ.stepped j }
  else if σ.stepped i = 1 then
    let r := setNX σ.store key (tok i)
    { store := r.1,
      stepped := fun j => if j = i then 2 else σ.stepped j,
      result := fun j => if j = i then some r.2 else σ.result j }
  else σ

/-- Run a schedule (an arbitrary interleaving of the instances' steps). -/
def runSched {n : Nat} (key : String) (tok : Fin n → String) :
    List (Fin n) → AcqState n → AcqState n
  | [], σ => σ
  | i :: rest, σ => runSched key tok rest (acqStep key tok σ i)

/-- Mutual-exclusion invariant for the racing instances: either nobody has
performed a conditional set yet and the key is free, or there is a unique
winner whose token occupies the key. -/
def AcqInv {n : Nat} (key : String) (tok : Fin n → String) (σ : AcqState n) : Prop :=
  (σ.store key = none ∧ (∀ i, σ.stepped i ≤ 1) ∧ (∀ i, σ.result i = none)) ∨
  (∃ w, σ.stepped w = 2 ∧ σ.result w = some true ∧ σ.store key = some (tok w) ∧
    ∀ j, j ≠ w → σ.result j ≠ some true)

/-- Poll interval of `spin_acquire` in milliseconds: the loop sleeps 0.1
seconds between conditional sets (`asyncio.sleep(0.1)`). -/
def pollIntervalMs : Nat := 100

/-- Poll loop of `spin_acquire`, in ideal discrete time: poll `k` happens
`k` poll intervals after polling starts; `env k` is the store contents this
instance observes at poll `k` (concurrent holders may change it between
polls).  Each poll is one conditional set, succeeding when the key is
absent; after a failed set the loop returns false once the elapsed time has
reached the deadline, else sleeps one interval and retries.  Returns the
result and the return time in ms.  The fuel argument only bounds recursion
and is chosen so it never runs out. -/
def spin_go (key : String) (env : Nat → Store) (deadlineMs : Nat) :
    Nat → Nat → Bool × Nat
  | 0, k => (false, pollIntervalMs * k)
  | fuel + 1, k =>
    if (env k key).isNone then (true, pollIntervalMs * k)
    else if deadlineMs ≤ pollIntervalMs * k then (false, pollIntervalMs * k)
    else spin_go key env deadlineMs fuel (k + 1)

/-- The method `RedisDistributedLock.spin_acquire` with `max_wait_time`
seconds: the deadline is `1000 * W` ms and at most `10 * W + 1` polls can
happen before it triggers.  The initial own-token cleanup script of the
source is absorbed into `env 0`, the store observed at the first poll. -/
def RedisDistributedLock.spin_acquire (l : RedisDistributedLock)
    (env : Nat → Store) (max_wait_time : Nat) : Bool × Nat :=
  spin_go l.lock_key env (1000 * max_wait_time) (10 * max_wait_time + 1) 0

/-- Python values as handled by the facade's JSON layer: `None`, booleans,
integers, strings, lists and string-keyed dictionaries.  Floats are outside
the model. -/
inductive PyVal where
  | none : PyVal
  | bool : Bool → PyVal
  | int : Int → PyVal
  | str : String → PyVal
  | list : List PyVal → PyVal
  | dict : List (String × PyVal) → PyVal

/-- Decimal digit test on characters. -/
def isDigitChar (c : Char) : Bool := 48 ≤ c.toNat && c.toNat ≤ 57

/-- Character of a decimal digit below ten. -/
def digitChar : Nat → Char
  | 0 => '0'
  | 1 => '1'
  | 2 => '2'
  | 3 => '3'
  | 4 => '4'
  | 5 => '5'
  | 6 => '6'
  | 7 => '7'
  | 8 => '8'
  | _ => '9'

/-- Fuelled digit emitter; any fuel above the number suffices. -/
def natCharsAux : Nat → Nat → List Char
  | 0, _ => []
  | fuel + 1, n =>
    if n < 10 then [digitChar n]
    else natCharsAux fuel (n / 10) ++ [digitChar (n % 10)]

/-- Decimal representation of a natural number, most significant first. -/
def natChars (n : Nat) : List Char := natCharsAux (n + 1) n

/-- Decimal representation of an integer (Python `repr`). -/
def intChars (i : Int) : List Char :=
  if i < 0 then '-' :: natChars i.natAbs else natChars i.toNat

/-- Value of a list of decimal digits, most significant first. -/
def digitsToNat (ds : List Char) : Nat :=
  ds.foldl (fun a c => 10 * a + (c.toNat - 48)) 0

/-- Parse a nonempty run of leading decimal digits. -/
def parseNat (cs : List Char) : Option (Nat × List Char) :=
  let ds := cs.takeWhile isDigitChar
  if ds.isEmpty then Option.none
  else some (digitsToNat ds, cs.dropWhile isDigitChar)

/-- Lowercase hexadecimal digit character for a value below sixteen. -/
def hexDigitChar : Nat → Char
  | 0 => '0'
  | 1 => '1'
  | 2 => '2'
  | 3 => '3'
  | 4 => '4'
  | 5 => '5'
  | 6 => '6'
  | 7 => '7'
  | 8 => '8'
  | 9 => '9'
  | 10 => 'a'
  | 11 => 'b'
  | 12 => 'c'
  | 13 => 'd'
  | 14 => 'e'
  | _ => 'f'

/-- Value of one hexadecimal digit character. -/
def hexVal (c : Char) : Option Nat :=
  if 48 ≤ c.toNat && c.toNat ≤ 57 then some (c.toNat - 48)
  else if 97 ≤ c.toNat && c.toNat ≤ 102 then some (c.toNat - 87)
  else if 65 ≤ c.toNat && c.toNat ≤ 70 then some (c.toNat - 55)
  else Option.none

/-- JSON escape of one character as emitted by `json.dumps` with
`ensure_ascii=False`: quote, backslash and control characters are escaped,
everything else is emitted raw. -/
def escChar (c : Char) : List Char :=
  if c = '"' then ['\\', '"']
  else if c = '\\' then ['\\', '\\']
  else if c = '\n' then ['\\', 'n']
  else if c = '\t' then ['\\', 't']
  else if c = '\r' then ['\\', 'r']
  else if c.toNat = 8 then ['\\', 'b']
  else if c.toNat = 12 then ['\\', 'f']
  else if c.toNat < 32 then
    ['\\', 'u', '0', '0', hexDigitChar (c.toNat / 16), hexDigitChar (c.toNat % 16)]
  else [c]

/-- JSON escape of a character sequence. -/
def escChars (cs : List Char) : List Char := cs.flatMap escChar

/-- Inverse of the named escapes. -/
def unescChar (c : Char) : Option Char :=
  if c = '"' then some '"'
  else if c = '\\' then some '\\'
  else if c = '/' then some '/'
  else if c = 'n' then some '\n'
  else if c = 't' then some '\t'
  else if c = 'r' then some '\r'
  else if c = 'b' then some (Char.ofNat 8)
  else if c = 'f' then some (Char.ofNat 12)
  else Option.none

/-- Parse the body of a JSON string up to and including the closing quote,
handling backslash escapes; returns the decoded characters and the rest. -/
def parseStrBody : List Char → Option (List Char × List Char)
  | [] => Option.none
  | '"' :: r => some ([], r)
  | '\\' :: 'u' :: h1 :: h2 :: h3 :: h4 :: r =>
    match hexVal h1, hexVal h2, hexVal h3, hexVal h4 with
    | some a, some b, some x, some d =>
      match parseStrBody r with
      | some (sc, rr) =>
        some (Char.ofNat (4096 * a + 256 * b + 16 * x + d) :: sc, rr)
      | _ => Option.none
    | _, _, _, _ => Option.none
  | '\\' :: e :: r =>
    match unescChar e with
    | some u =>
      match parseStrBody r with
      | some (sc, rr) => some (u :: sc, rr)
      | _ => Option.none
    | _ => Option.none
  | c :: r =>
    match parseStrBody r with
    | some (sc, rr) => some (c :: sc, rr)
    | _ => Option.none

/-- Whitespace test used when skipping between JSON tokens. -/
def isWsChar (c : Char) : Bool := c = ' ' || c = '\t' || c = '\n' || c = '\r'

/-- Skip leading whitespace. -/
def skipWs (cs : List Char) : List Char := cs.dropWhile isWsChar

/-- Continuations that cannot extend a decimal literal: empty input or a
non-digit first character. -/
def noDigitHead (cs : List Char) : Bool :=
  match cs with
  | [] => true
  | c :: _ => !(isDigitChar c)

/-- Strip an expected literal from the front of the input. -/
def stripPre : List Char → List Char → Option (List Char)
  | [], cs => some cs
  | _ :: _, [] => Option.none
  | p :: ps, c :: cs => if c = p then stripPre ps cs else Option.none

mutual
/-- Serialisation of a value by `json.dumps(·, ensure_ascii=False)`, with
the default separators (comma-space between items, colon-space after keys). -/
def dumpChars : PyVal → List Char
  | .none => 'n' :: 'u' :: 'l' :: 'l' :: []
  | .bool true => 't' :: 'r' :: 'u' :: 'e' :: []
  | .bool false => 'f' :: 'a' :: 'l' :: 's' :: 'e' :: []
  | .int i => intChars i
  | .str s => '"' :: (escChars s.data ++ ['"'])
  | .list [] => ['[', ']']
  | .list (v :: vs) => '[' :: (dumpItems (v :: vs) ++ [']'])
  | .dict [] => ['{', '}']
  | .dict (p :: ps) => '{' :: (dumpPairs (p :: ps) ++ ['}'])
/-- Comma-space separated serialisation of array items. -/
def dumpItems : List PyVal → List Char
  | [] => []
  | [v] => dumpChars v
  | v :: vs => dumpChars v ++ ',' :: ' ' :: dumpItems vs
/-- Comma-space separated serialisation of object entries, each entry being
the quoted key, colon-space, and the value. -/
def dumpPairs : List (String × PyVal) → List Char
  | [] => []
  | [(k, v)] => '"' :: (escChars k.data ++ '"' :: ':' :: ' ' :: dumpChars v)
  | (k, v) :: ps =>
    ('"' :: (escChars k.data ++ '"' :: ':' :: ' ' :: dumpChars v)) ++
      ',' :: ' ' :: dumpPairs ps
end

mutual
/-- Fuel-indexed JSON parser for one value (the model of `json.loads`).
The fuel only bounds recursion depth; any fuel at least the input length
suffices. -/
def parseVal : Nat → List Char → Option (PyVal × List Char)
  | 0, _ => Option.none
  | _ + 1, [] => Option.none
  | _ + 1, 'n' :: r =>
    match stripPre ['u', 'l', 'l'] r with
    | some r2 => some (.none, r2)
    | _ => Option.none
  | _ + 1, 't' :: r =>
    match stripPre ['r', 'u', 'e'] r with
    | some r2 => some (.bool true, r2)
    | _ => Option.none
  | _ + 1, 'f' :: r =>
    match stripPre ['a', 'l', 's', 'e'] r with
    | some r2 => some (.bool false, r2)
    | _ => Option.none
  | _ + 1, '"' :: r =>
    match parseStrBody r with
    | some (sc, r2) => some (.str (String.mk sc), r2)
    | _ => Option.none
  | _ + 1, '[' :: ']' :: r => some (.list [], r)
  | n + 1, '[' :: r =>
    match parseItems n r with
    | some (vs, r2) => some (.list vs, r2)
    | _ => Option.none
  | _ + 1, '{' :: '}' :: r => some (.dict [], r)
  | n + 1, '{' :: r =>
    match parsePairs n r with
    | some (ps, r2) => some (.dict ps, r2)
    | _ => Option.none
  | _ + 1, '-' :: r =>
    match parseNat r with
    | some (m, r2) => some (.int (-(m : Int)), r2)
    | _ => Option.none
  | _ + 1, c :: r =>
    if isDigitChar c then
      match parseNat (c :: r) with
      | some (m, r2) => some (.int (m : Int), r2)
      | _ => Option.none
    else Option.none
/-- Parse one or more comma-separated array items and the closing bracket. -/
def parseItems : Nat → List Char → Option (List PyVal × List Char)
  | 0, _ => Option.none
  | n + 1, cs =>
    match parseVal n cs with
    | some (v, r) =>
      match r with
      | ']' :: r2 => some ([v], r2)
      | ',' :: r2 =>
        match parseItems n (skipWs r2) with
        | some (vs, r3) => some (v :: vs, r3)
        | _ => Option.none
      | _ => Option.none
    | _ => Option.none
/-- Parse one or more comma-separated object entries and the closing brace. -/
def parsePairs : Nat → List Char → Option (List (String × PyVal) × List Char)
  | 0, _ => Option.none
  | n + 1, cs =>
    match cs with
    | '"' :: r0 =>
      match parseStrBody r0 with
      | some (kcs, r1) =>
        match r1 with
        | ':' :: r2 =>
          match parseVal n (skipWs r2) with
          | some (v, r3) =>
            match r3 with
            | '}' :: r4 => some ([(String.mk kcs, v)], r4)
            | ',' :: r4 =>
              match parsePairs n (skipWs r4) with
              | some (ps, r5) => some ((String.mk kcs, v) :: ps, r5)
              | _ => Option.none
            | _ => Option.none
          | _ => Option.none
        | _ => Option.none
      | _ => Option.none
    | _ => Option.none
end

/-- Serialisation entry point, `json.dumps(v, ensure_ascii=False)`. -/
def json_dumps (v : PyVal) : String := String.mk (dumpChars v)

/-- Deserialisation entry point, `json.loads`: parse one JSON value with
only whitespace around it; any other input fails. -/
def json_loads (s : String) : Option PyVal :=
  match parseVal (s.data.length + 1) (skipWs s.data) with
  | some (v, r) => if skipWs r = [] then some v else Option.none
  | _ => Option.none

/-- Structured (mapping or sequence) test: these are the values the facade
JSON-serialises on write. -/
def PyVal.isStructured : PyVal → Bool
  | .list _ => true
  | .dict _ => true
  | _ => false

/-- Distinctness of dictionary keys. -/
def distinctKeys : List String → Bool
  | [] => true
  | k :: ks => !(ks.contains k) && distinctKeys ks

mutual
/-- Well-formedness of a value as an image of actual Python data: every
dictionary in it has pairwise distinct keys. -/
def PyVal.wfKeys : PyVal → Bool
  | .none => true
  | .bool _ => true
  | .int _ => true
  | .str _ => true
  | .list vs => wfKeysList vs
  | .dict ps => distinctKeys (ps.map (fun p => p.1)) && wfKeysPairs ps
/-- Well-formedness of the values of a list. -/
def wfKeysList : List PyVal → Bool
  | [] => true
  | v :: vs => PyVal.wfKeys v && wfKeysList vs
/-- Well-formedness of the values of an object entry list. -/
def wfKeysPairs : List (String × PyVal) → Bool
  | [] => true
  | p :: ps => PyVal.wfKeys p.2 && wfKeysPairs ps
end

/-- Decode a raw stored string the way the reading facade operations do:
JSON-deserialise when possible, falling back to the raw scalar. -/
def loadsOrRaw (s : String) : PyVal :=
  match json_loads s with
  | some v => v
  | Option.none => .str s

/-- Serialisation applied by the writing facade operations: mappings and
sequences are JSON-encoded (`json.dumps(value, ensure_ascii=False)`), then
Python `str()` is applied, which is the identity on the encoded string and
renders scalars (`None`, `True`, `False`, numbers) as their `str()` form. -/
def serializeValue (v : PyVal) : String :=
  match v with
  | .list _ => json_dumps v
  | .dict _ => json_dumps v
  | .none => "None"
  | .bool true => "True"
  | .bool false => "False"
  | .int i => String.mk (intChars i)
  | .str s => s

/-- Replace or append a field of a hash, keeping field order. -/
def assocSet (l : List (String × String)) (k v : String) : List (String × String) :=
  match l with
  | [] => [(k, v)]
  | (a, b) :: t => if a = k then (k, v) :: t else (a, b) :: assocSet t k v

/-- Look up a field of a hash. -/
def assocGet (l : List (String × String)) (k : String) : Option String :=
  (l.find? (fun p => p.1 = k)).map (fun p => p.2)

/-- Keyspace state used by the key-value facade: plain string keys, hashes
(field lists per hash name), lists and sets. -/
structure RState where
  strings : String → Option String
  hashes : String → List (String × String)
  lists : String → List String
  sets : String → List String

/-- Empty keyspace. -/
def RState.empty : RState :=
  ⟨fun _ => Option.none, fun _ => [], fun _ => [], fun _ => []⟩

namespace RedisClient

/-- The facade operation `exist`: EXISTS under the fail-soft wrapper; the
`err` argument says whether the underlying client call raises (and with
what message), as in all the operations below. -/
def exist (st : RState) (k : String) (err : Option String) : Bool :=
  match err with
  | some _ => false
  | Option.none =>
    (st.strings k).isSome || !(st.hashes k).isEmpty || !(st.lists k).isEmpty ||
      !(st.sets k).isEmpty

/-- The facade operation `get`: plain GET, no deserialisation; returns the
raw stored string, or None, and None on error. -/
def get (st : RState) (k : String) (err : Option String) : Option String :=
  match err with
  | some _ => Option.none
  | Option.none => st.strings k

/-- The facade operation `set`: SETEX of a string value (expiry is carried
but not modelled); false on error. -/
def set (st : RState) (k v : String) (exp : Nat) (err : Option String) :
    RState × Bool :=
  match err with
  | some _ => (st, false)
  | Option.none =>
    ({ st with strings := fun q => if q = k then some v else st.strings q }, true)

/-- The facade operation `set_obj`: JSON-serialise the object, then SETEX;
false on error. -/
def set_obj (st : RState) (k : String) (obj : PyVal) (exp : Nat)
    (err : Option String) : RState × Bool :=
  match err with
  | some _ => (st, false)
  | Option.none =>
    ({ st with
      strings := fun q => if q = k then some (json_dumps obj) else st.strings q },
     true)

/-- The facade operation `delete`: DEL of one key of any type; false on
error, else whether the key existed. -/
def delete (st : RState) (k : String) (err : Option String) : RState × Bool :=
  match err with
  | some _ => (st, false)
  | Option.none =>
    (⟨fun q => if q = k then Option.none else st.strings q,
      fun q => if q = k then [] else st.hashes q,
      fun q => if q = k then [] else st.lists q,
      fun q => if q = k then [] else st.sets q⟩,
     (st.strings k).isSome || !(st.hashes k).isEmpty || !(st.lists k).isEmpty ||
       !(st.sets k).isEmpty)

/-- The facade operation `delete_if_equal`: run the compare-and-delete
script on the string keyspace; false on error. -/
def delete_if_equal (st : RState) (key expected : String) (err : Option String) :
    RState × Bool :=
  match err with
  | some _ => (st, false)
  | Option.none =>
    let r := luaDeleteIfEqual st.strings key expected
    ({ st with strings := r.1 }, r.2)

/-- The facade operation `hset`: serialise structured values, `str()` the
rest, write the field; the underlying HSET returns whether the field is
new; false on error. -/
def hset (st : RState) (name key : String) (value : PyVal)
    (err : Option String) : RState × Bool :=
  match err with
  | some _ => (st, false)
  | Option.none =>
    (({ st with
        hashes := fun q =>
          if q = name then assocSet (st.hashes name) key (serializeValue value)
          else st.hashes q }),
     (assocGet (st.hashes name) key).isNone)

/-- The facade operation `hget`: read the field, JSON-deserialise when
possible, fall back to the raw value; the default on a missing field or on
error. -/
def hget (st : RState) (name key : String) (default : PyVal)
    (err : Option String) : PyVal :=
  match err with
  | some _ => default
  | Option.none =>
    match assocGet (st.hashes name) key with
    | Option.none => default
    | some sv => loadsOrRaw sv

/-- The facade operation `hgetall`: all fields, each value deserialised
when possible; empty on error. -/
def hgetall (st : RState) (name : String) (err : Option String) :
    List (String × PyVal) :=
  match err with
  | some _ => []
  | Option.none => (st.hashes name).map (fun p => (p.1, loadsOrRaw p.2))

/-- The facade operation `hdel`: remove fields, returning how many were
present; 0 on error. -/
def hdel (st : RState) (name : String) (keys : List String)
    (err : Option String) : RState × Nat :=
  match err with
  | some _ => (st, 0)
  | Option.none =>
    (({ st with
        hashes := fun q =>
          if q = name then (st.hashes name).filter (fun p => !(keys.contains p.1))
          else st.hashes q }),
     ((st.hashes name).filter (fun p => keys.contains p.1)).length)

/-- The facade operation `lpush`: serialise each value, push left to
right; returns the new length, 0 on error. -/
def lpush (st : RState) (name : String) (values : List PyVal)
    (err : Option String) : RState × Nat :=
  match err with
  | some _ => (st, 0)
  | Option.none =>
    let nl := (values.map serializeValue).reverse ++ st.lists name
    ({ st with lists := fun q => if q = name then nl else st.lists q }, nl.length)

/-- The facade operation `rpop`: pop from the right, deserialise when
possible; the default when empty or on error. -/
def rpop (st : RState) (name : String) (default : PyVal)
    (err : Option String) : RState × PyVal :=
  match err with
  | some _ => (st, default)
  | Option.none =>
    match (st.lists name).getLast? with
    | Option.none => (st, default)
    | some sv =>
      (({ st with
          lists := fun q => if q = name then (st.lists name).dropLast
            else st.lists q }),
       loadsOrRaw sv)

/-- The facade operation `llen`: list length, 0 on error. -/
def llen (st : RState) (name : String) (err : Option String) : Nat :=
  match err with
  | some _ => 0
  | Option.none => (st.lists name).length

/-- The facade operation `sadd`: add a member; whether it was new, false
on error. -/
def sadd (st : RState) (key member : String) (err : Option String) :
    RState × Bool :=
  match err with
  | some _ => (st, false)
  | Option.none =>
    if (st.sets key).contains member then (st, false)
    else
      (({ st with
          sets := fun q => if q = key then member :: st.sets key else st.sets q }),
       true)

/-- The facade operation `srem`: remove a member; whether it was present,
false on error. -/
def srem (st : RState) (key member : String) (err : Option String) :
    RState × Bool :=
  match err with
  | some _ => (st, false)
  | Option.none =>
    if (st.sets key).contains member then
      (({ st with
          sets := fun q =>
            if q = key then (st.sets key).filter (fun m => !(m = member))
            else st.sets q }),
       true)
    else (st, false)

/-- The facade operation `smembers`: all members, empty on error. -/
def smembers (st : RState) (key : String) (err : Option String) : List String :=
  match err with
  | some _ => []
  | Option.none => st.sets key

/-- The facade operation `sismember`: membership, false on error. -/
def sismember (st : RState) (key member : String) (err : Option String) : Bool :=
  match err with
  | some _ => false
  | Option.none => (st.sets key).contains member

/-- The facade operation `mget`: batch read, each present value
deserialised when possible; one None per requested key on error. -/
def mget (st : RState) (keys : List String) (err : Option String) :
    List (Option PyVal) :=
  match err with
  | some _ => List.replicate keys.length Option.none
  | Option.none =>
    keys.map (fun k =>
      match st.strings k with
      | Option.none => Option.none
      | some sv => some (loadsOrRaw sv))

/-- The facade operation `mset`: batch write of serialised values; false
on error. -/
def mset (st : RState) (mapping : List (String × PyVal))
    (err : Option String) : RState × Bool :=
  match err with
  | some _ => (st, false)
  | Option.none =>
    (mapping.foldl
      (fun acc p =>
        { acc with
          strings := fun q =>
            if q = p.1 then some (serializeValue p.2) else acc.strings q })
      st,
     true)

/-- The facade operation `zadd`, embedded over the outcome of the
underlying call (sorted sets themselves are not modelled): number of
members added coerced to a boolean; false on error. -/
def zadd (r : Except String Nat) : Bool :=
  match r with
  | .ok n => n != 0
  | .error _ => false

/-- The facade operation `zcount` over the call outcome; 0 on error. -/
def zcount (r : Except String Nat) : Nat :=
  match r with
  | .ok n => n
  | .error _ => 0

/-- The facade operation `zpopmin` over the call outcome; empty on error. -/
def zpopmin (r : Except String (List (String × Int))) : List (String × Int) :=
  match r with
  | .ok l => l
  | .error _ => []

/-- The facade operation `zrangebyscore` over the call outcome; empty on
error. -/
def zrangebyscore (r : Except String (List String)) : List String :=
  match r with
  | .ok l => l
  | .error _ => []

/-- The facade operation `expire` over the call outcome; false on error. -/
def expire (r : Except String Bool) : Bool :=
  match r with
  | .ok b => b
  | .error _ => false

/-- The facade operation `ttl` over the call outcome; -2 on error. -/
def ttl (r : Except String Int) : Int :=
  match r with
  | .ok t => t
  | .error _ => -2

/-- The facade operation `transaction` over the outcome of the pipelined
conditional set; false on error. -/
def transaction (r : Except String Bool) : Bool :=
  match r with
  | .ok b => b
  | .error _ => false

end RedisClient

/-- One consumer group of a stream: name, last-delivered entry id, and
the pending entries (entry id, consumer name). -/
structure StreamGroup where
  name : String
  lastDeliveredId : Nat
  pending : List (Nat × String)

/-- One stream: entries in append order carrying strictly increasing ids
(fresh ids drawn from `nextId`), and the stream's consumer groups. -/
structure RStream where
  entries : List (Nat × List (String × String))
  nextId : Nat
  groups : List StreamGroup

/-- Find a group by name. -/
def RStream.findGroup (st : RStream) (g : String) : Option StreamGroup :=
  st.groups.find? (fun gr => gr.name = g)

/-- Update the named group in place. -/
def groupUpdate (st : RStream) (g : String) (f : StreamGroup → StreamGroup) :
    RStream :=
  { st with groups := st.groups.map (fun gr => if gr.name = g then f gr else gr) }

/-- XADD: append a payload under a fresh id, creating the stream when the
key is absent. -/
def xadd (q : Option RStream) (payload : List (String × String)) : RStream :=
  match q with
  | Option.none => ⟨[(1, payload)], 2, []⟩
  | some st => ⟨st.entries ++ [(st.nextId, payload)], st.nextId + 1, st.groups⟩

/-- The group-ensuring step of `queue_consumer`: XINFO GROUPS (which
raises `no such key` when the stream is absent) followed by
`XGROUP CREATE ... id 0 MKSTREAM` when the stream or group is missing.
The net effect is to create the stream and/or the group with its cursor at
id 0, so the whole history is deliverable. -/
def ensureGroup (q : Option RStream) (g : String) : RStream :=
  match q with
  | Option.none => ⟨[], 1, [⟨g, 0, []⟩]⟩
  | some st =>
    if st.groups.any (fun gr => gr.name = g) then st
    else { st with groups := st.groups ++ [⟨g, 0, []⟩] }

/-- XREADGROUP with the new-messages cursor `>` and COUNT 1: deliver the
first entry beyond the group's last-delivered id to this consumer, marking
it pending and advancing the cursor; NOGROUP error when the group is
absent. -/
def xreadgroupOne (st : RStream) (g c : String) :
    Except String (RStream × Option (Nat × List (String × String))) :=
  match st.findGroup g with
  | Option.none => .error "NOGROUP"
  | some gr =>
    match st.entries.find? (fun e => gr.lastDeliveredId < e.1) with
    | Option.none => .ok (st, Option.none)
    | some (id, pl) =>
      .ok (groupUpdate st g (fun gr2 =>
        { gr2 with lastDeliveredId := id, pending := gr2.pending ++ [(id, c)] }),
        some (id, pl))

/-- XACK: drop the entry from the group's pending list, returning how
many entries were acknowledged. -/
def xack (st : RStream) (g : String) (id : Nat) : RStream × Nat :=
  match st.findGroup g with
  | Option.none => (st, 0)
  | some gr =>
    (groupUpdate st g (fun gr2 =>
      { gr2 with pending := gr2.pending.filter (fun p => !(p.1 = id)) }),
     (gr.pending.filter (fun p => p.1 = id)).length)

/-- XRANGE id id: the entries carrying exactly that id (empty on a
missing stream; XRANGE does not raise). -/
def xrange1 (q : Option RStream) (id : Nat) :
    List (Nat × List (String × String)) :=
  match q with
  | Option.none => []
  | some st => st.entries.filter (fun e => e.1 = id)

/-- Block parameter of the blocking read in `queue_consumer` (5 seconds). -/
def consumeBlockMs : Nat := 5000

/-- Count parameter of the blocking read in `queue_consumer` (one entry). -/
def consumeCount : Nat := 1

/-- Entries of a possibly-absent stream. -/
def entriesOf (q : Option RStream) : List (Nat × List (String × String)) :=
  match q with
  | Option.none => []
  | some st => st.entries

/-- Pending list of a group of a possibly-absent stream. -/
def pendingOf (q : Option RStream) (g : String) : List (Nat × String) :=
  match q with
  | Option.none => []
  | some st =>
    match st.findGroup g with
    | Option.none => []
    | some gr => gr.pending

/-- The message handle `RedisMsg`: the entry id and the JSON-decoded value
of the payload's `message` field (decoded in the constructor). -/
structure RedisMsg where
  msg_id : Nat
  message : PyVal

/-- Constructor of `RedisMsg`: look up the payload's `message` field (a
missing field raises `KeyError`) and `json.loads` it (invalid JSON
raises); `Option.none` models the raised exception. -/
def mkRedisMsg (id : Nat) (payload : List (String × String)) :
    Option RedisMsg :=
  match (payload.find? (fun p => p.1 = "message")).map (fun p => p.2) with
  | Option.none => Option.none
  | some s => (json_loads s).map (fun m => ⟨id, m⟩)

/-- Result of one `queue_consumer` attempt body: either the function
returns (with a handle or nothing), or an exception was raised and the
loop retries. -/
inductive AttemptRes where
  | ret : Option RedisMsg → AttemptRes
  | err : String → AttemptRes

/-- One attempt of `queue_consumer`: ensure the group, then one bounded
blocking read; no delivered entry returns nothing at once; a delivered
entry is wrapped in `RedisMsg`, whose constructor may raise. -/
def consumeAttempt (q : Option RStream) (g c : String) :
    Option RStream × AttemptRes :=
  let st1 := ensureGroup q g
  match xreadgroupOne st1 g c with
  | .error e => (some st1, .err e)
  | .ok (st2, Option.none) => (some st2, .ret Option.none)
  | .ok (st2, some (id, pl)) =>
    match mkRedisMsg id pl with
    | some m => (some st2, .ret (some m))
    | Option.none => (some st2, .err "message decode")

namespace RedisClient

/-- Retry loop of `queue_consumer`: up to `fuel` attempts; `errAt k`
injects a transient store exception into attempt `k` (raised before any
server-side effect); returns the final stream state, the result, and the
number of attempts started. -/
def queue_consumer_go (g c : String) (errAt : Nat → Option String) :
    Nat → Nat → Option RStream → Option RStream × Option RedisMsg × Nat
  | 0, used, q => (q, Option.none, used)
  | fuel + 1, used, q =>
    match errAt used with
    | some _ => queue_consumer_go g c errAt fuel (used + 1) q
    | Option.none =>
      match consumeAttempt q g c with
      | (q2, .ret r) => (q2, r, used + 1)
      | (q2, .err _) => queue_consumer_go g c errAt fuel (used + 1) q2

/-- The method `queue_consumer` with its default start id `>`: three
attempts of ensure-group plus one blocking read; `no such key` and other
exceptions are caught and retried; nothing is returned once the attempts
are exhausted. -/
def queue_consumer (q : Option RStream) (g c : String)
    (errAt : Nat → Option String) : Option RStream × Option RedisMsg × Nat :=
  queue_consumer_go g c errAt 3 0 q

/-- Retry loop of `requeue_msg`. -/
def requeue_msg_go (g : String) (msgId : Nat) (errAt : Nat → Option String) :
    Nat → Nat → Option RStream → Option RStream × Bool
  | 0, _, q => (q, false)
  | fuel + 1, k, q =>
    match errAt k with
    | some _ => requeue_msg_go g msgId errAt fuel (k + 1) q
    | Option.none =>
      match xrange1 q msgId with
      | [] => requeue_msg_go g msgId errAt fuel (k + 1) q
      | (_, pl) :: _ =>
        (some (xack (xadd q pl) g msgId).1, true)

/-- The method `requeue_msg`: up to three attempts of XRANGE for the
entry, re-XADD of its payload verbatim, XACK of the old id; an empty
XRANGE (missing entry) falls through to the next attempt; false once the
attempts are exhausted. -/
def requeue_msg (q : Option RStream) (g : String) (msgId : Nat)
    (errAt : Nat → Option String) : Option RStream × Bool :=
  requeue_msg_go g msgId errAt 3 0 q

/-- Retry loop of `queue_product`. -/
def queue_product_go (msg : PyVal) (errAt : Nat → Option String) :
    Nat → Nat → Option RStream → Option RStream × Bool
  | 0, _, q => (q, false)
  | fuel + 1, k, q =>
    match errAt k with
    | some _ => queue_product_go msg errAt fuel (k + 1) q
    | Option.none => (some (xadd q [("message", json_dumps msg)]), true)

/-- The method `queue_product`: up to three attempts of XADD of the
payload `message = json.dumps(message)`; false once exhausted. -/
def queue_product (q : Option RStream) (msg : PyVal)
    (errAt : Nat → Option String) : Option RStream × Bool :=
  queue_product_go msg errAt 3 0 q

/-- Retry loop of `queue_info`: a missing stream raises inside XINFO and
is caught, a present stream without the group falls through the for loop;
both retry. -/
def queue_info_go (g : String) (errAt : Nat → Option String) :
    Nat → Nat → Option RStream → Option StreamGroup
  | 0, _, _ => Option.none
  | fuel + 1, k, q =>
    match errAt k with
    | some _ => queue_info_go g errAt fuel (k + 1) q
    | Option.none =>
      match q with
      | Option.none => queue_info_go g errAt fuel (k + 1) q
      | some st =>
        match st.findGroup g with
        | some gr => some gr
        | Option.none => queue_info_go g errAt fuel (k + 1) q

/-- The method `queue_info`: up to three attempts of XINFO GROUPS looking
for the named group; nothing once exhausted. -/
def queue_info (q : Option RStream) (g : String)
    (errAt : Nat → Option String) : Option StreamGroup :=
  queue_info_go g errAt 3 0 q

end RedisClient

/-- Group of a possibly-absent stream. -/
def findGroupOf (q : Option RStream) (g : String) : Option StreamGroup :=
  match q with
  | Option.none => Option.none
  | some st => st.findGroup g

/-- Invariant used for claim C10: the group exists, the given entry is
pending for this consumer, and the group's delivery cursor has reached or
passed that entry. -/
def PendInv (g c : String) (id : Nat) (q : Option RStream) : Prop :=
  ∃ gr, findGroupOf q g = some gr ∧ (id, c) ∈ gr.pending ∧
    id ≤ gr.lastDeliveredId

/-- Concrete stream used for C10: entry 1 lacks a `message` field (the
handle constructor raises on it), entry 2 is well-formed; the group `g`
already exists with its cursor at 0. -/
def witC10q : Option RStream :=
  some ⟨[(1, [("x", "oops")]), (2, [("message", "1")])], 3, [⟨"g", 0, []⟩]⟩

/-- Concrete unheld lock instance used by witnesses. -/
def witLockFree : RedisDistributedLock :=
  ⟨"job:42", "tok", 10, 1, false⟩

/-- Concrete held lock instance used by witnesses. -/
def witLockHeld : RedisDistributedLock :=
  ⟨"k", "t", 10, 1, true⟩

-- ---------------------------------------------------------------------------
-- Theorems
-- ---------------------------------------------------------------------------

theorem lua_fst_of_none {s : Store} {key : String} (e : String)
    (h : s key = none) : (luaDeleteIfEqual s key e).1 = s := by
  unfold luaDeleteIfEqual
  rw [h]

theorem lua_fst_of_ne {s : Store} {key v : String} {e : String}
    (h : s key = some v) (hne : v ≠ e) : (luaDeleteIfEqual s key e).1 = s := by
  unfold luaDeleteIfEqual
  rw [h]
  simp [hne]

theorem setNX_of_some {s : Store} {key v : String} (x : String)
    (h : s key = some v) : setNX s key x = (s, false) := by
  unfold setNX
  rw [h]

theorem setNX_of_none {s : Store} {key : String} (x : String)
    (h : s key = none) : setNX s key x = (s.update key (some x), true) := by
  unfold setNX
  rw [h]

/-- C2: the `delete_if_equal` script equals the specified atomic
compare-and-delete (read the key; if the current value equals the expected
value, delete the key and return true, else return false with the store
unchanged); when the key holds a different value the call returns false and
leaves the store unchanged; keys other than the addressed one are never
touched. -/
theorem c2_delete_if_equal_atomic (s : Store) (key expected : String) :
    luaDeleteIfEqual s key expected = specCompareAndDelete s key expected ∧
    (∀ v, s key = some v → v ≠ expected →
      luaDeleteIfEqual s key expected = (s, false)) ∧
    (∀ q, q ≠ key → (luaDeleteIfEqual s key expected).1 q = s q) := by
  refine ⟨?_, ?_, ?_⟩
  · unfold luaDeleteIfEqual specCompareAndDelete
    cases h : s key with
    | none => simp [h]
    | some cur =>
      by_cases hc : cur = expected
      · subst hc; simp [h]
      · simp [h, hc, Option.some_inj, hc]
  · intro v hv hne
    unfold luaDeleteIfEqual
    rw [hv]
    simp [hne]
  · intro q hq
    unfold luaDeleteIfEqual
    cases h : s key with
    | none => rfl
    | some cur =>
      by_cases hc : cur = expected
      · simp [hc, Store.update, hq]
      · simp [hc]

/-- Witness for C2 at the spec's own scenario: the key holds `tokenB`,
`compareAndDelete` with expected value `tokenA` returns false and leaves
the store untouched. -/
theorem c2_delete_if_equal_atomic_witness :
    ((fun _ => some "tokenB") : Store) "job:42" = some "tokenB" ∧
    ("tokenB" : String) ≠ "tokenA" ∧
    luaDeleteIfEqual (fun _ => some "tokenB") "job:42" "tokenA" =
      ((fun _ => some "tokenB"), false) :=
  ⟨rfl, by decide,
    (c2_delete_if_equal_atomic (fun _ => some "tokenB") "job:42" "tokenA").2.1
      "tokenB" rfl (by decide)⟩

/-- C4: `acquire()` first deletes the lock key only when it currently holds
this instance's own token; it then performs a single conditional set that
succeeds exactly when the key is absent at that point; it returns true and
marks the instance held exactly when that set wrote the key, and on failure
the store is left as the cleanup left it. -/
theorem c4_acquire_conditional_set (s : Store) (l : RedisDistributedLock) :
    (s l.lock_key ≠ some l.lock_value → (luaDeleteIfEqual s l.lock_key l.lock_value).1 = s) ∧
    (s l.lock_key = some l.lock_value →
      (luaDeleteIfEqual s l.lock_key l.lock_value).1 l.lock_key = none ∧
      ∀ q, q ≠ l.lock_key → (luaDeleteIfEqual s l.lock_key l.lock_value).1 q = s q) ∧
    ((l.acquire s).2.2 = true ↔ (luaDeleteIfEqual s l.lock_key l.lock_value).1 l.lock_key = none) ∧
    ((l.acquire s).2.1).acquired = (l.acquire s).2.2 ∧
    ((l.acquire s).2.2 = true →
      (l.acquire s).1 l.lock_key = some l.lock_value ∧
      ∀ q, q ≠ l.lock_key → (l.acquire s).1 q = (luaDeleteIfEqual s l.lock_key l.lock_value).1 q) ∧
    ((l.acquire s).2.2 = false → (l.acquire s).1 = (luaDeleteIfEqual s l.lock_key l.lock_value).1) := by
  refine ⟨?_, ?_, ?_, ?_, ?_, ?_⟩
  · intro hne
    unfold luaDeleteIfEqual
    cases h : s l.lock_key with
    | none => rfl
    | some cur =>
      have : cur ≠ l.lock_value := by
        intro hc; exact hne (by rw [h, hc])
      simp [this]
  · intro hv
    constructor
    · unfold luaDeleteIfEqual
      rw [hv]
      simp [Store.update]
    · intro q hq
      unfold luaDeleteIfEqual
      rw [hv]
      simp [Store.update, hq]
  · unfold RedisDistributedLock.acquire setNX
    cases h : (luaDeleteIfEqual s l.lock_key l.lock_value).1 l.lock_key with
    | none => simp [h]
    | some cur => simp [h]
  · unfold RedisDistributedLock.acquire
    rfl
  · intro hr
    unfold RedisDistributedLock.acquire setNX at *
    cases h : (luaDeleteIfEqual s l.lock_key l.lock_value).1 l.lock_key with
    | none => simp [h, Store.update] at *; intro q hq; simp [hq]
    | some cur => simp [h] at hr
  · intro hr
    unfold RedisDistributedLock.acquire setNX at *
    cases h : (luaDeleteIfEqual s l.lock_key l.lock_value).1 l.lock_key with
    | none => simp [h] at hr
    | some cur => simp [h]

/-- Witness for C4: on a free key the conditional set fires, acquire
returns true and marks the instance held. -/
theorem c4_acquire_conditional_set_witness :
    (witLockFree.acquire (fun _ => none)).2.2 = true ∧
    (witLockFree.acquire (fun _ => none)).1 "job:42" = some "tok" :=
  ⟨by decide,
    ((c4_acquire_conditional_set (fun _ => none) witLockFree).2.2.2.2.1
      (by decide)).1⟩

/-- C3: `release()` returns true with no store side effect when the
instance is not marked held; when held, it removes the key and returns true
exactly when the key currently holds this instance's token, never touches
other keys, never deletes the key when it holds a different token, and in
every case clears the held mark, so a second `release()` returns true with
no side effect. -/
theorem c3_release_only_own_token (s : Store) (l : RedisDistributedLock) :
    (l.acquired = false → l.release s = (s, l, true)) ∧
    (l.acquired = true →
      ((l.release s).2.2 = true ↔ s l.lock_key = some l.lock_value) ∧
      ((l.release s).2.2 = true → (l.release s).1 l.lock_key = none) ∧
      ((l.release s).2.2 = false → (l.release s).1 = s) ∧
      (∀ q, q ≠ l.lock_key → (l.release s).1 q = s q) ∧
      ((l.release s).2.1).acquired = false) ∧
    (((l.release s).2.1).release (l.release s).1 =
      ((l.release s).1, (l.release s).2.1, true)) := by
  refine ⟨?_, ?_, ?_⟩
  · intro h
    unfold RedisDistributedLock.release
    simp [h]
  · intro h
    unfold RedisDistributedLock.release luaDeleteIfEqual
    refine ⟨?_, ?_, ?_, ?_, ?_⟩
    · cases hv : s l.lock_key with
      | none => simp [h, hv]
      | some cur =>
        by_cases hc : cur = l.lock_value
        · subst hc; simp [h, hv]
        · simp [h, hv, hc, Option.some_inj]
    · intro hr
      cases hv : s l.lock_key with
      | none => simp [h, hv] at hr
      | some cur =>
        by_cases hc : cur = l.lock_value
        · subst hc; simp [h, hv, Store.update]
        · simp [h, hv, hc] at hr
    · intro hr
      cases hv : s l.lock_key with
      | none => simp [h, hv]
      | some cur =>
        by_cases hc : cur = l.lock_value
        · simp [h, hv, hc] at hr
        · simp [h, hv, hc]
    · intro q hq
      cases hv : s l.lock_key with
      | none => simp [h, hv]
      | some cur =>
        by_cases hc : cur = l.lock_value
        · simp [h, hv, hc, Store.update, hq]
        · simp [h, hv, hc]
    · simp [h]
  · by_cases h : l.acquired
    · unfold RedisDistributedLock.release
      simp [h]
    · unfold RedisDistributedLock.release
      simp [h]

/-- Witness for C3: a held lock whose token occupies the key releases
successfully, deleting the key. -/
theorem c3_release_only_own_token_witness :
    witLockHeld.acquired = true ∧
    ((witLockHeld.release (fun _ => some "t")).2.2 = true ↔
      ((fun _ => some "t") : Store) "k" = some "t") :=
  ⟨rfl, ((c3_release_only_own_token (fun _ => some "t") witLockHeld).2.1 rfl).1⟩

theorem acqInv_step {n : Nat} {key : String} {tok : Fin n → String}
    (hinj : ∀ i j, tok i = tok j → i = j) (σ : AcqState n) (i : Fin n)
    (h : AcqInv key tok σ) : AcqInv key tok (acqStep key tok σ i) := by
  unfold acqStep
  by_cases h0 : σ.stepped i = 0
  · rw [if_pos h0]
    rcases h with ⟨hk, hst, hres⟩ | ⟨w, hw2, hwres, hwkey, huniq⟩
    · left
      refine ⟨?_, ?_, hres⟩
      · rw [lua_fst_of_none _ hk]; exact hk
      · intro j
        by_cases hj : j = i <;> simp [hj, hst j]
    · right
      have hiw : i ≠ w := by
        intro he; rw [he, hw2] at h0; exact absurd h0 (by decide)
      have hne : tok w ≠ tok i := fun he => hiw (hinj i w he.symm)
      refine ⟨w, ?_, hwres, ?_, huniq⟩
      · simp [Ne.symm hiw, hw2]
      · rw [lua_fst_of_ne hwkey hne]; exact hwkey
  · rw [if_neg h0]
    by_cases h1 : σ.stepped i = 1
    · rw [if_pos h1]
      rcases h with ⟨hk, hst, hres⟩ | ⟨w, hw2, hwres, hwkey, huniq⟩
      · right
        refine ⟨i, ?_, ?_, ?_, ?_⟩
        · simp [setNX_of_none (tok i) hk]
        · simp [setNX_of_none (tok i) hk]
        · simp [setNX_of_none (tok i) hk, Store.update]
        · intro j hj
          simp [setNX_of_none (tok i) hk, hj, hres j]
      · have hiw : i ≠ w := by
          intro he; rw [he, hw2] at h1; exact absurd h1 (by decide)
        right
        refine ⟨w, ?_, ?_, ?_, ?_⟩
        · simp [setNX_of_some (tok i) hwkey, Ne.symm hiw, hw2]
        · simp [setNX_of_some (tok i) hwkey, Ne.symm hiw, hwres]
        · simp [setNX_of_some (tok i) hwkey, hwkey]
        · intro j hj
          by_cases hji : j = i
          · simp [setNX_of_some (tok i) hwkey, hji]
          · simp [setNX_of_some (tok i) hwkey, hji, huniq j hj]
    · rw [if_neg h1]
      exact h

theorem acqInv_run {n : Nat} {key : String} {tok : Fin n → String}
    (hinj : ∀ i j, tok i = tok j → i = j) (sched : List (Fin n)) (σ : AcqState n)
    (h : AcqInv key tok σ) : AcqInv key tok (runSched key tok sched σ) := by
  induction sched generalizing σ with
  | nil => exact h
  | cons i rest ih => exact ih _ (acqInv_step hinj σ i h)

theorem acqInv_atMostOne {n : Nat} {key : String} {tok : Fin n → String}
    {σ : AcqState n} (h : AcqInv key tok σ) :
    ∀ i j, σ.result i = some true → σ.result j = some true → i = j := by
  intro i j hi hj
  rcases h with ⟨_, _, hres⟩ | ⟨w, _, _, _, huniq⟩
  · rw [hres i] at hi; exact absurd hi (by simp)
  · have hiw : i = w := by
      by_contra hne
      exact huniq i hne hi
    have hjw : j = w := by
      by_contra hne
      exact huniq j hne hj
    rw [hiw, hjw]

/-- C1: mutual exclusion of the distributed lock.  For any number of
instances with pairwise distinct tokens concurrently running `acquire()`
on a lock key that is initially free, under every interleaving of their
store round-trips: at every instant at most one instance has succeeded
(is in the held state), and once every instance has completed its call,
exactly one instance's `acquire()` returned true. -/
theorem c1_lock_mutual_exclusion {n : Nat} (key : String) (tok : Fin n → String)
    (s0 : Store) (sched : List (Fin n))
    (hinj : ∀ i j, tok i = tok j → i = j)
    (h0 : s0 key = none) :
    (∀ pre suf, sched = pre ++ suf →
      ∀ i j, (runSched key tok pre (initAcqState n s0)).result i = some true →
        (runSched key tok pre (initAcqState n s0)).result j = some true → i = j) ∧
    ((∀ i, (runSched key tok sched (initAcqState n s0)).stepped i = 2) → 0 < n →
      ∃ w, (runSched key tok sched (initAcqState n s0)).result w = some true ∧
        ∀ j, (runSched key tok sched (initAcqState n s0)).result j = some true → j = w) := by
  have hinit : AcqInv key tok (initAcqState n s0) :=
    Or.inl ⟨h0, fun _ => by simp [initAcqState], fun _ => rfl⟩
  constructor
  · intro pre _ _ i j hi hj
    exact acqInv_atMostOne (acqInv_run hinj pre _ hinit) i j hi hj
  · intro hdone hn
    have hinv := acqInv_run hinj sched _ hinit
    rcases hinv with ⟨_, hst, _⟩ | ⟨w, _, hwres, _, huniq⟩
    · exfalso
      have := hst ⟨0, hn⟩
      rw [hdone ⟨0, hn⟩] at this
      exact absurd this (by decide)
    · refine ⟨w, hwres, ?_⟩
      intro j hj
      by_contra hne
      exact huniq j hne hj

/-- Witness for C1: two instances with distinct tokens, fully interleaved
schedule, initially free key: exactly one wins. -/
theorem c1_lock_mutual_exclusion_witness :
    (∀ i j : Fin 2, (if i = 0 then "tA" else "tB") = (if j = 0 then "tA" else "tB") → i = j) ∧
    ((fun _ => none) : Store) "job:42" = none ∧
    (∃ w : Fin 2,
      (runSched "job:42" (fun i => if i = 0 then "tA" else "tB")
        [0, 1, 0, 1] (initAcqState 2 (fun _ => none))).result w = some true ∧
      ∀ j, (runSched "job:42" (fun i => if i = 0 then "tA" else "tB")
        [0, 1, 0, 1] (initAcqState 2 (fun _ => none))).result j = some true → j = w) :=
  ⟨by decide, rfl,
    (c1_lock_mutual_exclusion "job:42" (fun i => if i = 0 then "tA" else "tB")
      (fun _ => none) [0, 1, 0, 1] (by decide) rfl).2 (by decide) (by decide)⟩

theorem spin_go_spec (key : String) (env : Nat → Store) (W : Nat) :
    ∀ fuel k, k ≤ 10 * W → k + fuel = 10 * W + 1 →
      ((spin_go key env (1000 * W) fuel k).1 = true ↔
        ∃ j, k ≤ j ∧ j ≤ 10 * W ∧ env j key = none) ∧
      ((spin_go key env (1000 * W) fuel k).1 = false →
        (spin_go key env (1000 * W) fuel k).2 = 1000 * W) ∧
      (spin_go key env (1000 * W) fuel k).2 ≤ 1000 * W := by
  intro fuel
  induction fuel with
  | zero => intro k hk hsum; omega
  | succ fuel ih =>
    intro k hk hsum
    by_cases hfree : (env k key).isNone
    · have hnone : env k key = none := Option.isNone_iff_eq_none.mp hfree
      have e : spin_go key env (1000 * W) (fuel + 1) k = (true, pollIntervalMs * k) := by
        simp only [spin_go, if_pos hfree]
      rw [e]
      refine ⟨⟨fun _ => ⟨k, le_refl k, hk, hnone⟩, fun _ => rfl⟩, ?_, ?_⟩
      · intro h; exact absurd h (by simp)
      · simp only [pollIntervalMs]; omega
    · by_cases hdl : 1000 * W ≤ pollIntervalMs * k
      · have hkW : k = 10 * W := by
          simp only [pollIntervalMs] at hdl; omega
        have e : spin_go key env (1000 * W) (fuel + 1) k = (false, pollIntervalMs * k) := by
          simp only [spin_go, if_neg hfree, if_pos hdl]
        rw [e]
        refine ⟨?_, ?_, ?_⟩
        · constructor
          · intro h; exact absurd h (by simp)
          · rintro ⟨j, hj1, hj2, hj3⟩
            have hjk : j = k := by omega
            rw [hjk] at hj3
            rw [hj3] at hfree
            exact absurd rfl hfree
        · intro _; simp only [pollIntervalMs]; omega
        · simp only [pollIntervalMs]; omega
      · have hlt : pollIntervalMs * k < 1000 * W := lt_of_not_le hdl
        have hk1 : k + 1 ≤ 10 * W := by
          simp only [pollIntervalMs] at hlt; omega
        have hrec := ih (k + 1) hk1 (by omega)
        have e : spin_go key env (1000 * W) (fuel + 1) k =
            spin_go key env (1000 * W) fuel (k + 1) := by
          simp only [spin_go, if_neg hfree, if_neg hdl]
        rw [e]
        refine ⟨?_, hrec.2.1, hrec.2.2⟩
        rw [hrec.1]
        constructor
        · rintro ⟨j, hj1, hj2, hj3⟩
          exact ⟨j, by omega, hj2, hj3⟩
        · rintro ⟨j, hj1, hj2, hj3⟩
          have hjk : j ≠ k := by
            intro he
            rw [he] at hj3
            rw [hj3] at hfree
            exact absurd rfl hfree
          exact ⟨j, by omega, hj2, hj3⟩

/-- C5: `spin_acquire(maxWait = W)` polls the conditional set at the fixed
100 ms interval; it returns true exactly when one of its conditional sets
finds the key absent (and so writes the lock) at some poll within the wait
window, returns false exactly when every poll up to the deadline found the
key occupied -- in which case it returns at time `1000 * W` ms -- and in
every case it returns no later than `W` seconds plus one poll interval
after it starts polling. -/
theorem c5_spin_acquire_bounded (l : RedisDistributedLock) (env : Nat → Store)
    (W : Nat) :
    ((l.spin_acquire env W).1 = true ↔
      ∃ j, j ≤ 10 * W ∧ env j l.lock_key = none) ∧
    ((l.spin_acquire env W).1 = false ↔
      ∀ j, j ≤ 10 * W → env j l.lock_key ≠ none) ∧
    ((l.spin_acquire env W).1 = false → (l.spin_acquire env W).2 = 1000 * W) ∧
    (l.spin_acquire env W).2 ≤ 1000 * W + pollIntervalMs := by
  have h := spin_go_spec l.lock_key env W (10 * W + 1) 0 (by omega) (by omega)
  have h1 : (l.spin_acquire env W).1 = true ↔
      ∃ j, j ≤ 10 * W ∧ env j l.lock_key = none := by
    rw [RedisDistributedLock.spin_acquire, h.1]
    constructor
    · rintro ⟨j, _, hj2, hj3⟩; exact ⟨j, hj2, hj3⟩
    · rintro ⟨j, hj2, hj3⟩; exact ⟨j, Nat.zero_le j, hj2, hj3⟩
  refine ⟨h1, ?_, ?_, ?_⟩
  · constructor
    · intro hf j hj
      intro hnone
      have : (l.spin_acquire env W).1 = true := h1.mpr ⟨j, hj, hnone⟩
      rw [hf] at this
      exact absurd this (by simp)
    · intro hall
      cases hres : (l.spin_acquire env W).1 with
      | false => rfl
      | true =>
        rcases h1.mp hres with ⟨j, hj, hnone⟩
        exact absurd hnone (hall j hj)
  · rw [RedisDistributedLock.spin_acquire]
    exact h.2.1
  · rw [RedisDistributedLock.spin_acquire]
    exact le_trans h.2.2 (Nat.le_add_right _ _)

/-- Witness for C5: with the key permanently occupied and a one second
budget, `spin_acquire` returns false at exactly 1000 ms. -/
theorem c5_spin_acquire_bounded_witness :
    (witLockFree.spin_acquire (fun _ _ => some "other") 1).1 = false ∧
    (witLockFree.spin_acquire (fun _ _ => some "other") 1).2 = 1000 :=
  ⟨by decide,
    (c5_spin_acquire_bounded witLockFree (fun _ _ => some "other") 1).2.2.1
      (by decide)⟩

theorem natCharsAux_congr :
    ∀ f1 f2 n, n < f1 → n < f2 → natCharsAux f1 n = natCharsAux f2 n := by
  intro f1
  induction f1 with
  | zero => intro f2 n h1 _; omega
  | succ f ih =>
    intro f2 n h1 h2
    cases f2 with
    | zero => omega
    | succ g =>
      by_cases h10 : n < 10
      · simp [natCharsAux, h10]
      · have hd : n / 10 < n := Nat.div_lt_self (by omega) (by omega)
        simp only [natCharsAux, if_neg h10]
        rw [ih g (n / 10) (by omega) (by omega)]

theorem natChars_eq (n : Nat) :
    natChars n =
      if n < 10 then [digitChar n] else natChars (n / 10) ++ [digitChar (n % 10)] := by
  by_cases h10 : n < 10
  · simp [natChars, natCharsAux, h10]
  · simp only [natChars, if_neg h10]
    conv_lhs => rw [natCharsAux]
    rw [if_neg h10, natCharsAux_congr n (n / 10 + 1) (n / 10) (by omega) (by omega)]

theorem digitChar_toNat {d : Nat} (h : d < 10) : (digitChar d).toNat = 48 + d := by
  interval_cases d <;> rfl

theorem isDigitChar_digitChar {d : Nat} (h : d < 10) :
    isDigitChar (digitChar d) = true := by
  interval_cases d <;> rfl

theorem natChars_all_digits (n : Nat) : ∀ c ∈ natChars n, isDigitChar c = true := by
  induction n using Nat.strong_induction_on with
  | _ n ih =>
    rw [natChars_eq]
    by_cases h10 : n < 10
    · simp only [if_pos h10]
      intro c hc
      simp at hc
      rw [hc]
      exact isDigitChar_digitChar h10
    · have hd : n / 10 < n := Nat.div_lt_self (by omega) (by omega)
      simp only [if_neg h10]
      intro c hc
      rcases List.mem_append.mp hc with h | h
      · exact ih (n / 10) hd c h
      · simp at h
        rw [h]
        exact isDigitChar_digitChar (Nat.mod_lt n (by omega))

theorem natChars_head_digit (n : Nat) :
    ∃ c t, natChars n = c :: t ∧ isDigitChar c = true := by
  induction n using Nat.strong_induction_on with
  | _ n ih =>
    rw [natChars_eq]
    by_cases h10 : n < 10
    · exact ⟨digitChar n, [], by simp [h10], isDigitChar_digitChar h10⟩
    · have hd : n / 10 < n := Nat.div_lt_self (by omega) (by omega)
      obtain ⟨c, t, he, hdig⟩ := ih (n / 10) hd
      exact ⟨c, t ++ [digitChar (n % 10)], by simp [h10, he], hdig⟩

theorem digitsToNat_append_single (l : List Char) (c : Char) :
    digitsToNat (l ++ [c]) = 10 * digitsToNat l + (c.toNat - 48) := by
  unfold digitsToNat
  rw [List.foldl_append]
  rfl

theorem digitsToNat_natChars (n : Nat) : digitsToNat (natChars n) = n := by
  induction n using Nat.strong_induction_on with
  | _ n ih =>
    rw [natChars_eq]
    by_cases h10 : n < 10
    · simp only [if_pos h10]
      simp [digitsToNat, digitChar_toNat h10]
    · have hd : n / 10 < n := Nat.div_lt_self (by omega) (by omega)
      simp only [if_neg h10]
      rw [digitsToNat_append_single, ih (n / 10) hd,
        digitChar_toNat (Nat.mod_lt n (by omega))]
      omega

theorem takeWhile_append_all {p : Char → Bool} :
    ∀ l r : List Char, (∀ c ∈ l, p c = true) →
      (∀ c, r.head? = some c → p c = false) →
      (l ++ r).takeWhile p = l ∧ (l ++ r).dropWhile p = r := by
  intro l
  induction l with
  | nil =>
    intro r _ hr
    cases r with
    | nil => exact ⟨rfl, rfl⟩
    | cons c t =>
      have hc := hr c rfl
      constructor <;> simp [List.takeWhile_cons, List.dropWhile_cons, hc]
  | cons a l ih =>
    intro r hl hr
    have ha : p a = true := hl a (List.mem_cons_self a l)
    have hrec := ih r (fun c hc => hl c (List.mem_cons_of_mem _ hc)) hr
    constructor <;>
      simp [List.takeWhile_cons, List.dropWhile_cons, ha, hrec.1, hrec.2]

theorem parseNat_natChars (m : Nat) (rest : List Char)
    (h : noDigitHead rest = true) :
    parseNat (natChars m ++ rest) = some (m, rest) := by
  have hall := natChars_all_digits m
  have hr : ∀ c, rest.head? = some c → isDigitChar c = false := by
    intro c hc
    cases rest with
    | nil => simp at hc
    | cons x t =>
      simp at hc
      rw [← hc]
      unfold noDigitHead at h
      simpa using h
  have ht := takeWhile_append_all (natChars m) rest hall hr
  have hne : (natChars m).isEmpty = false := by
    obtain ⟨c, t, he, _⟩ := natChars_head_digit m
    rw [he]
    rfl
  simp [parseNat, ht.1, ht.2, hne, digitsToNat_natChars]

theorem hexVal_hexDigitChar : ∀ d, d < 16 → hexVal (hexDigitChar d) = some d := by
  decide

theorem hexVal_zero : hexVal '0' = some 0 := rfl

theorem parseStrBody_close (r : List Char) : parseStrBody ('"' :: r) = some ([], r) := by
  simp [parseStrBody, unescChar]

theorem parseStrBody_escq (r : List Char) :
    parseStrBody ('\\' :: '"' :: r) =
      match parseStrBody r with
      | some (sc, rr) => some ('"' :: sc, rr)
      | _ => Option.none := by
  simp [parseStrBody, unescChar]

theorem parseStrBody_escb (r : List Char) :
    parseStrBody ('\\' :: '\\' :: r) =
      match parseStrBody r with
      | some (sc, rr) => some ('\\' :: sc, rr)
      | _ => Option.none := by
  simp [parseStrBody, unescChar]

theorem parseStrBody_escn (r : List Char) :
    parseStrBody ('\\' :: 'n' :: r) =
      match parseStrBody r with
      | some (sc, rr) => some ('\n' :: sc, rr)
      | _ => Option.none := by
  simp [parseStrBody, unescChar]

theorem parseStrBody_esct (r : List Char) :
    parseStrBody ('\\' :: 't' :: r) =
      match parseStrBody r with
      | some (sc, rr) => some ('\t' :: sc, rr)
      | _ => Option.none := by
  simp [parseStrBody, unescChar]

theorem parseStrBody_escr (r : List Char) :
    parseStrBody ('\\' :: 'r' :: r) =
      match parseStrBody r with
      | some (sc, rr) => some ('\r' :: sc, rr)
      | _ => Option.none := by
  simp [parseStrBody, unescChar]

theorem parseStrBody_escbs (r : List Char) :
    parseStrBody ('\\' :: 'b' :: r) =
      match parseStrBody r with
      | some (sc, rr) => some (Char.ofNat 8 :: sc, rr)
      | _ => Option.none := by
  simp [parseStrBody, unescChar]

theorem parseStrBody_escf (r : List Char) :
    parseStrBody ('\\' :: 'f' :: r) =
      match parseStrBody r with
      | some (sc, rr) => some (Char.ofNat 12 :: sc, rr)
      | _ => Option.none := by
  simp [parseStrBody, unescChar]

theorem parseStrBody_escu (h1 h2 h3 h4 : Char) (a b x d : Nat)
    (ha : hexVal h1 = some a) (hb : hexVal h2 = some b)
    (hx : hexVal h3 = some x) (hd : hexVal h4 = some d) (r : List Char) :
    parseStrBody ('\\' :: 'u' :: h1 :: h2 :: h3 :: h4 :: r) =
      match parseStrBody r with
      | some (sc, rr) => some (Char.ofNat (4096 * a + 256 * b + 16 * x + d) :: sc, rr)
      | _ => Option.none := by
  have e : parseStrBody ('\\' :: 'u' :: h1 :: h2 :: h3 :: h4 :: r) =
      match hexVal h1, hexVal h2, hexVal h3, hexVal h4 with
      | some a, some b, some x, some d =>
        match parseStrBody r with
        | some (sc, rr) =>
          some (Char.ofNat (4096 * a + 256 * b + 16 * x + d) :: sc, rr)
        | _ => Option.none
      | _, _, _, _ => Option.none := by
    simp [parseStrBody]
  rw [e, ha, hb, hx, hd]

theorem parseStrBody_raw {c : Char} (h1 : ¬c = '"') (h2 : ¬c = '\\')
    (r : List Char) :
    parseStrBody (c :: r) =
      match parseStrBody r with
      | some (sc, rr) => some (c :: sc, rr)
      | _ => Option.none := by
  simp [parseStrBody, h1, h2]

theorem parseStrBody_escChars :
    ∀ cs rest, parseStrBody (escChars cs ++ '"' :: rest) = some (cs, rest) := by
  intro cs
  induction cs with
  | nil =>
    intro rest
    show parseStrBody ('"' :: rest) = some ([], rest)
    rfl
  | cons c cs ih =>
    intro rest
    have he : escChars (c :: cs) = escChar c ++ escChars cs := by
      simp [escChars]
    rw [he, List.append_assoc]
    by_cases h1 : c = '"'
    · rw [show escChar c = ['\\', '"'] from by rw [escChar, if_pos h1]]
      simp only [List.cons_append, List.nil_append]
      rw [parseStrBody_escq, ih rest, h1]
    · by_cases h2 : c = '\\'
      · rw [show escChar c = ['\\', '\\'] from by rw [escChar, if_neg h1, if_pos h2]]
        simp only [List.cons_append, List.nil_append]
        rw [parseStrBody_escb, ih rest, h2]
      · by_cases h3 : c = '\n'
        · rw [show escChar c = ['\\', 'n'] from by
            rw [escChar, if_neg h1, if_neg h2, if_pos h3]]
          simp only [List.cons_append, List.nil_append]
          rw [parseStrBody_escn, ih rest, h3]
        · by_cases h4 : c = '\t'
          · rw [show escChar c = ['\\', 't'] from by
              rw [escChar, if_neg h1, if_neg h2, if_neg h3, if_pos h4]]
            simp only [List.cons_append, List.nil_append]
            rw [parseStrBody_esct, ih rest, h4]
          · by_cases h5 : c = '\r'
            · rw [show escChar c = ['\\', 'r'] from by
                rw [escChar, if_neg h1, if_neg h2, if_neg h3, if_neg h4, if_pos h5]]
              simp only [List.cons_append, List.nil_append]
              rw [parseStrBody_escr, ih rest, h5]
            · by_cases h6 : c.toNat = 8
              · rw [show escChar c = ['\\', 'b'] from by
                  rw [escChar, if_neg h1, if_neg h2, if_neg h3, if_neg h4,
                    if_neg h5, if_pos h6]]
                simp only [List.cons_append, List.nil_append]
                rw [parseStrBody_escbs, ih rest, ← h6, Char.ofNat_toNat]
              · by_cases h7 : c.toNat = 12
                · rw [show escChar c = ['\\', 'f'] from by
                    rw [escChar, if_neg h1, if_neg h2, if_neg h3, if_neg h4,
                      if_neg h5, if_neg h6, if_pos h7]]
                  simp only [List.cons_append, List.nil_append]
                  rw [parseStrBody_escf, ih rest, ← h7, Char.ofNat_toNat]
                · by_cases h8 : c.toNat < 32
                  · rw [show escChar c =
                        ['\\', 'u', '0', '0', hexDigitChar (c.toNat / 16),
                          hexDigitChar (c.toNat % 16)] from by
                      rw [escChar, if_neg h1, if_neg h2, if_neg h3, if_neg h4,
                        if_neg h5, if_neg h6, if_neg h7, if_pos h8]]
                    simp only [List.cons_append, List.nil_append]
                    rw [parseStrBody_escu '0' '0' _ _ 0 0 (c.toNat / 16)
                      (c.toNat % 16) hexVal_zero hexVal_zero
                      (hexVal_hexDigitChar _ (by omega))
                      (hexVal_hexDigitChar _ (by omega)), ih rest]
                    have harith : 4096 * 0 + 256 * 0 + 16 * (c.toNat / 16) +
                        c.toNat % 16 = c.toNat := by omega
                    rw [harith, Char.ofNat_toNat]
                  · rw [show escChar c = [c] from by
                      rw [escChar, if_neg h1, if_neg h2, if_neg h3, if_neg h4,
                        if_neg h5, if_neg h6, if_neg h7, if_neg h8]]
                    simp only [List.cons_append, List.nil_append]
                    rw [parseStrBody_raw h1 h2, ih rest]

theorem digit_props {c : Char} (h : isDigitChar c = true) :
    isWsChar c = false ∧ c ≠ ']' ∧ c ≠ '}' := by
  have h1 : c ≠ ' ' := fun he => by rw [he] at h; exact absurd h (by decide)
  have h2 : c ≠ '\t' := fun he => by rw [he] at h; exact absurd h (by decide)
  have h3 : c ≠ '\n' := fun he => by rw [he] at h; exact absurd h (by decide)
  have h4 : c ≠ '\r' := fun he => by rw [he] at h; exact absurd h (by decide)
  refine ⟨by simp [isWsChar, h1, h2, h3, h4], ?_, ?_⟩
  · exact fun he => by rw [he] at h; exact absurd h (by decide)
  · exact fun he => by rw [he] at h; exact absurd h (by decide)

theorem dump_head (v : PyVal) :
    ∃ c t, dumpChars v = c :: t ∧ isWsChar c = false ∧ c ≠ ']' ∧ c ≠ '}' := by
  cases v with
  | none => exact ⟨'n', _, rfl, by decide⟩
  | bool b =>
    cases b with
    | true => exact ⟨'t', _, rfl, by decide⟩
    | false => exact ⟨'f', _, rfl, by decide⟩
  | int i =>
    by_cases hneg : i < 0
    · refine ⟨'-', natChars i.natAbs, ?_, by decide⟩
      simp [dumpChars, intChars, hneg]
    · obtain ⟨c, t, he, hd⟩ := natChars_head_digit i.toNat
      obtain ⟨hw, h1, h2⟩ := digit_props hd
      refine ⟨c, t, ?_, hw, h1, h2⟩
      simp [dumpChars, intChars, hneg, he]
  | str s => exact ⟨'"', _, rfl, by decide⟩
  | list vs =>
    cases vs with
    | nil => exact ⟨'[', _, rfl, by decide⟩
    | cons v vs => exact ⟨'[', _, rfl, by decide⟩
  | dict ps =>
    cases ps with
    | nil => exact ⟨'{', _, rfl, by decide⟩
    | cons p ps => exact ⟨'{', _, rfl, by decide⟩

theorem dumpItems_head {vs : List PyVal} (h : vs ≠ []) :
    ∃ c t, dumpItems vs = c :: t ∧ isWsChar c = false ∧ c ≠ ']' ∧ c ≠ '}' := by
  match vs with
  | [] => exact absurd rfl h
  | [v] =>
    obtain ⟨c, t, he, hw, h1, h2⟩ := dump_head v
    exact ⟨c, t, by simp [dumpItems, he], hw, h1, h2⟩
  | v :: w :: vs =>
    obtain ⟨c, t, he, hw, h1, h2⟩ := dump_head v
    exact ⟨c, t ++ ',' :: ' ' :: dumpItems (w :: vs), by simp [dumpItems, he], hw, h1, h2⟩

theorem dumpPairs_head {ps : List (String × PyVal)} (h : ps ≠ []) :
    ∃ t, dumpPairs ps = '"' :: t := by
  match ps with
  | [] => exact absurd rfl h
  | [(k, v)] =>
    exact ⟨escChars k.data ++ '"' :: ':' :: ' ' :: dumpChars v, by simp [dumpPairs]⟩
  | (k, v) :: q :: ps =>
    refine ⟨(escChars k.data ++ '"' :: ':' :: ' ' :: dumpChars v) ++
      ',' :: ' ' :: dumpPairs (q :: ps), ?_⟩
    simp [dumpPairs]

theorem dump_ne_nil (v : PyVal) : (dumpChars v).length ≥ 1 := by
  obtain ⟨c, t, he, _⟩ := dump_head v
  rw [he]
  simp

theorem skipWs_not_ws {c : Char} (t : List Char) (h : isWsChar c = false) :
    skipWs (c :: t) = c :: t := by
  simp [skipWs, List.dropWhile_cons, h]

theorem skipWs_space (t : List Char) : skipWs (' ' :: t) = skipWs t := by
  have hws : isWsChar ' ' = true := by decide
  simp [skipWs, List.dropWhile_cons, hws]

theorem parseVal_intChars (n : Nat) (i : Int) (rest : List Char)
    (h : noDigitHead rest = true) :
    parseVal (n + 1) (intChars i ++ rest) = some (.int i, rest) := by
  unfold intChars
  by_cases hneg : i < 0
  · rw [if_pos hneg]
    rw [List.cons_append]
    have e : parseVal (n + 1) ('-' :: (natChars i.natAbs ++ rest)) =
        match parseNat (natChars i.natAbs ++ rest) with
        | some (m, r2) => some (.int (-(m : Int)), r2)
        | _ => Option.none := by
      simp [parseVal]
    rw [e, parseNat_natChars i.natAbs rest h]
    show some (PyVal.int (-((i.natAbs : Nat) : Int)), rest) = some (PyVal.int i, rest)
    rw [show -((i.natAbs : Nat) : Int) = i by omega]
  · rw [if_neg hneg]
    obtain ⟨c, t, he, hd⟩ := natChars_head_digit i.toNat
    have hrw := parseNat_natChars i.toNat rest h
    rw [he, List.cons_append] at hrw
    rw [he, List.cons_append]
    have hn : ¬c = 'n' := fun hx => by rw [hx] at hd; exact absurd hd (by decide)
    have ht : ¬c = 't' := fun hx => by rw [hx] at hd; exact absurd hd (by decide)
    have hf : ¬c = 'f' := fun hx => by rw [hx] at hd; exact absurd hd (by decide)
    have hq : ¬c = '"' := fun hx => by rw [hx] at hd; exact absurd hd (by decide)
    have hlb : ¬c = '[' := fun hx => by rw [hx] at hd; exact absurd hd (by decide)
    have hlc : ¬c = '{' := fun hx => by rw [hx] at hd; exact absurd hd (by decide)
    have hdash : ¬c = '-' := fun hx => by rw [hx] at hd; exact absurd hd (by decide)
    rw [parseVal.eq_12 n c (t ++ rest) hn ht hf hq (fun _ hc _ => hlb hc) hlb
      (fun _ hc _ => hlc hc) hlc hdash, if_pos hd, hrw]
    show some (PyVal.int ((i.toNat : Nat) : Int), rest) = some (PyVal.int i, rest)
    rw [show ((i.toNat : Nat) : Int) = i by omega]

theorem parse_dump_roundtrip : ∀ n,
    (∀ v rest, (dumpChars v).length ≤ n → noDigitHead rest = true →
      parseVal n (dumpChars v ++ rest) = some (v, rest)) ∧
    (∀ vs rest, vs ≠ [] → (dumpItems vs).length + 1 ≤ n →
      parseItems n (dumpItems vs ++ ']' :: rest) = some (vs, rest)) ∧
    (∀ ps rest, ps ≠ [] → (dumpPairs ps).length + 1 ≤ n →
      parsePairs n (dumpPairs ps ++ '}' :: rest) = some (ps, rest)) := by
  intro n
  induction n with
  | zero =>
    refine ⟨?_, ?_, ?_⟩
    · intro v rest hl _
      have := dump_ne_nil v
      omega
    · intro vs rest _ hl
      omega
    · intro ps rest _ hl
      omega
  | succ n ih =>
    obtain ⟨ihP, ihQ, ihR⟩ := ih
    refine ⟨?_, ?_, ?_⟩
    · intro v rest hl hnd
      cases v with
      | none => simp [dumpChars, parseVal, stripPre]
      | bool b => cases b <;> simp [dumpChars, parseVal, stripPre]
      | int i => exact parseVal_intChars n i rest hnd
      | str s =>
        have harr : dumpChars (.str s) ++ rest =
            '"' :: (escChars s.data ++ '"' :: rest) := by
          simp [dumpChars]
        rw [harr, parseVal.eq_6, parseStrBody_escChars s.data rest]
      | list vs =>
        cases vs with
        | nil =>
          have harr : dumpChars (.list []) ++ rest = '[' :: ']' :: rest := by
            simp [dumpChars]
          rw [harr, parseVal.eq_7]
        | cons v vs =>
          have hne : v :: vs ≠ ([] : List PyVal) := by simp
          obtain ⟨c, t, he, hw, h1, h2⟩ := dumpItems_head hne
          have hlen : (dumpItems (v :: vs)).length + 1 ≤ n := by
            have hc : (dumpChars (.list (v :: vs))).length =
                (dumpItems (v :: vs)).length + 2 := by
              simp [dumpChars]
            omega
          have hq := ihQ (v :: vs) rest hne hlen
          have harr : dumpChars (.list (v :: vs)) ++ rest =
              '[' :: (dumpItems (v :: vs) ++ ']' :: rest) := by
            simp [dumpChars]
          rw [harr, he, List.cons_append]
          have hside : ∀ r1 : List Char, c :: (t ++ ']' :: rest) = ']' :: r1 → False := by
            intro r1 hcons
            rw [List.cons.injEq] at hcons
            exact h1 hcons.1
          rw [parseVal.eq_8 n _ hside, ← List.cons_append, ← he, hq]
      | dict ps =>
        cases ps with
        | nil =>
          have harr : dumpChars (.dict []) ++ rest = '{' :: '}' :: rest := by
            simp [dumpChars]
          rw [harr, parseVal.eq_9]
        | cons p ps =>
          have hne : p :: ps ≠ ([] : List (String × PyVal)) := by simp
          obtain ⟨t, he⟩ := dumpPairs_head hne
          have hlen : (dumpPairs (p :: ps)).length + 1 ≤ n := by
            have hc : (dumpChars (.dict (p :: ps))).length =
                (dumpPairs (p :: ps)).length + 2 := by
              simp [dumpChars]
            omega
          have hr := ihR (p :: ps) rest hne hlen
          have harr : dumpChars (.dict (p :: ps)) ++ rest =
              '{' :: (dumpPairs (p :: ps) ++ '}' :: rest) := by
            simp [dumpChars]
          rw [harr, he, List.cons_append]
          have hside : ∀ r1 : List Char, '"' :: (t ++ '}' :: rest) = '}' :: r1 → False := by
            intro r1 hcons
            rw [List.cons.injEq] at hcons
            exact absurd hcons.1 (by decide)
          rw [parseVal.eq_10 n _ hside, ← List.cons_append, ← he, hr]
    · intro vs rest hne hlen
      match vs, hne with
      | v :: vs, _ =>
        cases vs with
        | nil =>
          have harr : dumpItems [v] ++ ']' :: rest = dumpChars v ++ ']' :: rest := by
            simp [dumpItems]
          have hlv : (dumpChars v).length ≤ n := by
            have : dumpItems [v] = dumpChars v := by simp [dumpItems]
            rw [this] at hlen
            omega
          have hP := ihP v (']' :: rest) hlv (by rfl)
          rw [harr]
          simp [parseItems, hP]
        | cons w vs =>
          have hlens : (dumpChars v).length + 2 + (dumpItems (w :: vs)).length + 1 ≤ n + 1 := by
            have : (dumpItems (v :: w :: vs)).length =
                (dumpChars v).length + ((dumpItems (w :: vs)).length + 2) := by
              simp [dumpItems]
            omega
          have harr : dumpItems (v :: w :: vs) ++ ']' :: rest =
              dumpChars v ++ (',' :: ' ' :: (dumpItems (w :: vs) ++ ']' :: rest)) := by
            simp [dumpItems]
          rw [harr]
          have hP := ihP v (',' :: ' ' :: (dumpItems (w :: vs) ++ ']' :: rest))
            (by omega) (by rfl)
          have hwne : w :: vs ≠ ([] : List PyVal) := by simp
          obtain ⟨c2, t2, he2, hw2, _, _⟩ := dumpItems_head hwne
          have hskip : skipWs (' ' :: (dumpItems (w :: vs) ++ ']' :: rest)) =
              dumpItems (w :: vs) ++ ']' :: rest := by
            rw [skipWs_space, he2, List.cons_append, skipWs_not_ws _ hw2,
              ← List.cons_append, ← he2]
          have hQ := ihQ (w :: vs) rest hwne (by omega)
          simp [parseItems, hP, hskip, hQ]
    · intro ps rest hne hlen
      match ps, hne with
      | (k, v) :: ps, _ =>
        cases ps with
        | nil =>
          have harr : dumpPairs [(k, v)] ++ '}' :: rest =
              '"' :: (escChars k.data ++ '"' ::
                (':' :: (' ' :: (dumpChars v ++ '}' :: rest)))) := by
            simp [dumpPairs]
          have hlv : (dumpChars v).length ≤ n := by
            have : (dumpPairs [(k, v)]).length =
                (escChars k.data).length + 4 + (dumpChars v).length := by
              simp only [dumpPairs, List.length_cons, List.length_append]
              omega
            omega
          obtain ⟨c2, t2, he2, hw2, _, _⟩ := dump_head v
          have hskip : skipWs (' ' :: (dumpChars v ++ '}' :: rest)) =
              dumpChars v ++ '}' :: rest := by
            rw [skipWs_space, he2, List.cons_append, skipWs_not_ws _ hw2,
              ← List.cons_append, ← he2]
          have hP := ihP v ('}' :: rest) hlv (by rfl)
          rw [harr]
          simp [parsePairs, parseStrBody_escChars, hskip, hP]
        | cons q ps =>
          have hlens : (escChars k.data).length + 4 + (dumpChars v).length + 2 +
              (dumpPairs (q :: ps)).length + 1 ≤ n + 1 := by
            have : (dumpPairs ((k, v) :: q :: ps)).length =
                (escChars k.data).length + 4 + (dumpChars v).length + 2 +
                  (dumpPairs (q :: ps)).length := by
              simp only [dumpPairs, List.length_cons, List.length_append]
              omega
            omega
          have harr : dumpPairs ((k, v) :: q :: ps) ++ '}' :: rest =
              '"' :: (escChars k.data ++ '"' ::
                (':' :: (' ' :: (dumpChars v ++
                  ',' :: (' ' :: (dumpPairs (q :: ps) ++ '}' :: rest)))))) := by
            simp [dumpPairs]
          obtain ⟨c2, t2, he2, hw2, _, _⟩ := dump_head v
          have hskip : skipWs (' ' :: (dumpChars v ++
              ',' :: (' ' :: (dumpPairs (q :: ps) ++ '}' :: rest)))) =
              dumpChars v ++ ',' :: (' ' :: (dumpPairs (q :: ps) ++ '}' :: rest)) := by
            rw [skipWs_space, he2, List.cons_append, skipWs_not_ws _ hw2,
              ← List.cons_append, ← he2]
          have hP := ihP v (',' :: (' ' :: (dumpPairs (q :: ps) ++ '}' :: rest)))
            (by omega) (by rfl)
          obtain ⟨t3, he3⟩ := dumpPairs_head (show q :: ps ≠ [] by simp)
          have hskip2 : skipWs (' ' :: (dumpPairs (q :: ps) ++ '}' :: rest)) =
              dumpPairs (q :: ps) ++ '}' :: rest := by
            rw [skipWs_space, he3, List.cons_append,
              skipWs_not_ws _ (by decide), ← List.cons_append, ← he3]
          have hR := ihR (q :: ps) rest (by simp) (by omega)
          rw [harr]
          simp [parsePairs, parseStrBody_escChars, hskip, hP, hskip2, hR]

theorem json_loads_dumps (v : PyVal) : json_loads (json_dumps v) = some v := by
  obtain ⟨c, t, he, hw, _, _⟩ := dump_head v
  have hskip : skipWs (dumpChars v) = dumpChars v := by
    rw [he]
    exact skipWs_not_ws t hw
  have hP := (parse_dump_roundtrip ((dumpChars v).length + 1)).1 v []
    (by omega) (by rfl)
  rw [List.append_nil] at hP
  show (match parseVal ((dumpChars v).length + 1) (skipWs (dumpChars v)) with
    | some (w, r) => if skipWs r = [] then some w else Option.none
    | _ => Option.none) = some v
  rw [hskip, hP]
  show (if skipWs ([] : List Char) = [] then some v else Option.none) = some v
  rfl

theorem assocGet_assocSet (l : List (String × String)) (k v : String) :
    assocGet (assocSet l k v) k = some v := by
  induction l with
  | nil => simp [assocGet, assocSet, List.find?]
  | cons p t ih =>
    by_cases h : p.1 = k
    · cases p with
      | mk a b =>
        simp only [assocSet]
        rw [if_pos h]
        simp [assocGet, List.find?]
    · cases p with
      | mk a b =>
        simp only [assocSet]
        rw [if_neg h]
        simp only [assocGet, List.find?_cons] at ih ⊢
        have hb : (decide (a = k)) = false := by
          simp only at h
          simp [h]
        rw [hb]
        exact ih

theorem serializeValue_structured {v : PyVal} (hs : v.isStructured = true) :
    serializeValue v = json_dumps v := by
  cases v with
  | list vs => rfl
  | dict ps => rfl
  | none => exact absurd hs (by decide)
  | bool b => exact absurd hs (by simp [PyVal.isStructured])
  | int i => exact absurd hs (by simp [PyVal.isStructured])
  | str s => exact absurd hs (by simp [PyVal.isStructured])

theorem loadsOrRaw_dumps (v : PyVal) : loadsOrRaw (json_dumps v) = v := by
  simp [loadsOrRaw, json_loads_dumps]

/-- C9 counterexample: the claimed round trip across `set_obj`/`get` fails:
writing the dictionary with one key `a` mapped to 1 under `set_obj` and
reading the key back with `get` returns the raw JSON text of the
dictionary (a string value), not a value equal to the dictionary. -/
theorem c9_set_obj_get_counterexample :
    RedisClient.get
      (RedisClient.set_obj RState.empty "k" (PyVal.dict [("a", PyVal.int 1)])
        3600 Option.none).1 "k" Option.none =
      some "\x7b\"a\": 1\x7d" ∧
    PyVal.str "\x7b\"a\": 1\x7d" ≠ PyVal.dict [("a", PyVal.int 1)] :=
  ⟨by decide, fun h => PyVal.noConfusion h⟩

/-- C9 amended: structured (mapping or sequence) values are JSON-serialised
on write, and the reads that deserialise do round-trip: for every
well-formed structured value, `hget` after `hset` returns a value equal to
the one written; `set_obj` writes the JSON text of the value, and `get`
(which performs no deserialisation) returns exactly that serialised text. -/
theorem c9_structured_roundtrip (st : RState) (name key k : String)
    (v d : PyVal) (hs : v.isStructured = true) (hwf : v.wfKeys = true) :
    RedisClient.hget (RedisClient.hset st name key v Option.none).1
      name key d Option.none = v ∧
    RedisClient.get (RedisClient.set_obj st k v 3600 Option.none).1
      k Option.none = some (json_dumps v) := by
  constructor
  · show RedisClient.hget
      ({ st with
        hashes := fun q =>
          if q = name then assocSet (st.hashes name) key (serializeValue v)
          else st.hashes q }) name key d Option.none = v
    show (match assocGet (if name = name then assocSet (st.hashes name) key
        (serializeValue v) else st.hashes name) key with
      | Option.none => d
      | some sv => loadsOrRaw sv) = v
    rw [if_pos rfl, assocGet_assocSet, serializeValue_structured hs]
    exact loadsOrRaw_dumps v
  · show (({ st with
      strings := fun q => if q = k then some (json_dumps v) else st.strings q } :
        RState).strings k) = some (json_dumps v)
    simp

/-- Witness for the amended C9 at a concrete dictionary. -/
theorem c9_structured_roundtrip_witness :
    (PyVal.dict [("a", PyVal.int 1)]).isStructured = true ∧
    (PyVal.dict [("a", PyVal.int 1)]).wfKeys = true ∧
    RedisClient.hget
      (RedisClient.hset RState.empty "h" "f" (PyVal.dict [("a", PyVal.int 1)])
        Option.none).1 "h" "f" PyVal.none Option.none =
      PyVal.dict [("a", PyVal.int 1)] :=
  ⟨rfl, rfl,
    (c9_structured_roundtrip RState.empty "h" "f" "k"
      (PyVal.dict [("a", PyVal.int 1)]) PyVal.none rfl rfl).1⟩

/-- C6: the fail-soft policy of the key-value facade and queue layer: when
the underlying store call raises (any message `e`), every operation
returns its safe default instead of propagating the exception: false for
the boolean operations, the None/default for reads, 0 for counts, the
empty collection for collection reads, one None per requested key for
`mget` (and -2, the no-key sentinel, for `ttl`); the queue operations
retry three times and then return their safe negative result with the
store unchanged. -/
theorem c6_fail_soft (st : RState) (e k v name key member : String)
    (exp : Nat) (obj d : PyVal) (keys : List String) (values : List PyVal)
    (mapping : List (String × PyVal)) (msgId : Nat) (q : Option RStream)
    (g c : String) (msg : PyVal) :
    RedisClient.exist st k (some e) = false ∧
    RedisClient.get st k (some e) = Option.none ∧
    RedisClient.set st k v exp (some e) = (st, false) ∧
    RedisClient.set_obj st k obj exp (some e) = (st, false) ∧
    RedisClient.delete st k (some e) = (st, false) ∧
    RedisClient.delete_if_equal st k v (some e) = (st, false) ∧
    RedisClient.hset st name key obj (some e) = (st, false) ∧
    RedisClient.hget st name key d (some e) = d ∧
    RedisClient.hgetall st name (some e) = [] ∧
    RedisClient.hdel st name keys (some e) = (st, 0) ∧
    RedisClient.lpush st name values (some e) = (st, 0) ∧
    RedisClient.rpop st name d (some e) = (st, d) ∧
    RedisClient.llen st name (some e) = 0 ∧
    RedisClient.sadd st k member (some e) = (st, false) ∧
    RedisClient.srem st k member (some e) = (st, false) ∧
    RedisClient.smembers st k (some e) = [] ∧
    RedisClient.sismember st k member (some e) = false ∧
    RedisClient.zadd (.error e) = false ∧
    RedisClient.zcount (.error e) = 0 ∧
    RedisClient.zpopmin (.error e) = [] ∧
    RedisClient.zrangebyscore (.error e) = [] ∧
    RedisClient.expire (.error e) = false ∧
    RedisClient.ttl (.error e) = -2 ∧
    RedisClient.transaction (.error e) = false ∧
    RedisClient.mget st keys (some e) = List.replicate keys.length Option.none ∧
    RedisClient.mset st mapping (some e) = (st, false) ∧
    RedisClient.queue_product q msg (fun _ => some e) = (q, false) ∧
    (RedisClient.queue_consumer q g c (fun _ => some e)).1 = q ∧
    (RedisClient.queue_consumer q g c (fun _ => some e)).2.1 = Option.none ∧
    RedisClient.requeue_msg q g msgId (fun _ => some e) = (q, false) ∧
    RedisClient.queue_info q g (fun _ => some e) = Option.none :=
  ⟨rfl, rfl, rfl, rfl, rfl, rfl, rfl, rfl, rfl, rfl, rfl, rfl, rfl, rfl, rfl,
   rfl, rfl, rfl, rfl, rfl, rfl, rfl, rfl, rfl, rfl, rfl, rfl, rfl, rfl, rfl,
   rfl⟩

theorem queue_consumer_go_step (g c : String) (errAt : Nat → Option String)
    (fuel used : Nat) (q : Option RStream) (h : errAt used = Option.none) :
    RedisClient.queue_consumer_go g c errAt (fuel + 1) used q =
      match consumeAttempt q g c with
      | (q2, .ret r) => (q2, r, used + 1)
      | (q2, .err _) => RedisClient.queue_consumer_go g c errAt fuel (used + 1) q2 := by
  conv_lhs => rw [RedisClient.queue_consumer_go]
  rw [h]

theorem queue_consumer_go_err (g c : String) (errAt : Nat → Option String)
    (fuel used : Nat) (q : Option RStream) (s : String) (h : errAt used = some s) :
    RedisClient.queue_consumer_go g c errAt (fuel + 1) used q =
      RedisClient.queue_consumer_go g c errAt fuel (used + 1) q := by
  conv_lhs => rw [RedisClient.queue_consumer_go]
  rw [h]

theorem ensureGroup_has (q : Option RStream) (g : String) :
    ((ensureGroup q g).findGroup g).isSome = true := by
  cases q with
  | none => simp [ensureGroup, RStream.findGroup, List.find?]
  | some st =>
    by_cases h : st.groups.any (fun gr => gr.name = g)
    · simp only [ensureGroup, if_pos h]
      rcases List.any_eq_true.mp h with ⟨gr, hmem, hp⟩
      exact List.find?_isSome.mpr ⟨gr, hmem, hp⟩
    · simp only [ensureGroup, if_neg h]
      show ((st.groups ++ [⟨g, 0, []⟩] : List StreamGroup).find?
        (fun gr => gr.name = g)).isSome = true
      exact List.find?_isSome.mpr ⟨⟨g, 0, []⟩, by simp, by simp⟩

theorem mkRedisMsg_id {id : Nat} {pl : List (String × String)} {m : RedisMsg}
    (h : mkRedisMsg id pl = some m) : m.msg_id = id := by
  unfold mkRedisMsg at h
  cases hf : (pl.find? (fun p => p.1 = "message")).map (fun p => p.2) with
  | none => rw [hf] at h; exact absurd h (by simp)
  | some s =>
    rw [hf] at h
    rcases Option.map_eq_some'.mp h with ⟨mm, _, heq⟩
    rw [← heq]

/-- C7: `queue_consumer` first ensures the consumer group exists, creating
the stream and the group from the beginning (cursor 0, mkstream) when
absent; it then performs one bounded blocking read for this consumer
(count 1, block `consumeBlockMs` = 5000 ms): a delivered entry comes back
as a handle carrying the entry id and the decoded payload, with the entry
marked pending; no delivered entry means nothing is returned at once; and
when every attempt raises a transient error (including `no such key`) the
call retries up to 3 attempts and returns nothing with the store
unchanged, never a raised error. -/
theorem c7_queue_consumer (q : Option RStream) (g c : String)
    (errAt : Nat → Option String) (gr : StreamGroup) (id : Nat)
    (pl : List (String × String)) (m : RedisMsg) (s : String) :
    (RedisClient.queue_consumer Option.none g c (fun _ => Option.none) =
      (some ⟨[], 1, [⟨g, 0, []⟩]⟩, Option.none, 1)) ∧
    (((ensureGroup q g).findGroup g).isSome = true) ∧
    ((ensureGroup q g).findGroup g = some gr →
      (ensureGroup q g).entries.find? (fun en => gr.lastDeliveredId < en.1) =
        some (id, pl) →
      mkRedisMsg id pl = some m →
      RedisClient.queue_consumer q g c (fun _ => Option.none) =
        (some (groupUpdate (ensureGroup q g) g (fun gr2 =>
          { gr2 with lastDeliveredId := id, pending := gr2.pending ++ [(id, c)] })),
         some m, 1) ∧ m.msg_id = id) ∧
    ((ensureGroup q g).findGroup g = some gr →
      (ensureGroup q g).entries.find? (fun en => gr.lastDeliveredId < en.1) =
        Option.none →
      RedisClient.queue_consumer q g c (fun _ => Option.none) =
        (some (ensureGroup q g), Option.none, 1)) ∧
    ((∀ j, j < 3 → errAt j = some s) →
      RedisClient.queue_consumer q g c errAt = (q, Option.none, 3)) ∧
    consumeBlockMs = 5000 ∧ consumeCount = 1 := by
  refine ⟨?_, ensureGroup_has q g, ?_, ?_, ?_, rfl, rfl⟩
  · have hgr0 : (ensureGroup Option.none g).findGroup g = some ⟨g, 0, []⟩ := by
      simp [ensureGroup, RStream.findGroup, List.find?]
    have hread : xreadgroupOne (ensureGroup Option.none g) g c =
        .ok (ensureGroup Option.none g, Option.none) := by
      simp only [xreadgroupOne, hgr0]
      rfl
    have hatt : consumeAttempt Option.none g c =
        (some (ensureGroup Option.none g), .ret Option.none) := by
      simp only [consumeAttempt, hread]
    rw [RedisClient.queue_consumer, queue_consumer_go_step g c _ 2 0 _ rfl, hatt]
    rfl
  · intro hgr hfind hm
    have hread : xreadgroupOne (ensureGroup q g) g c =
        .ok (groupUpdate (ensureGroup q g) g (fun gr2 =>
          { gr2 with lastDeliveredId := id, pending := gr2.pending ++ [(id, c)] }),
          some (id, pl)) := by
      simp only [xreadgroupOne, hgr, hfind]
    have hatt : consumeAttempt q g c =
        (some (groupUpdate (ensureGroup q g) g (fun gr2 =>
          { gr2 with lastDeliveredId := id, pending := gr2.pending ++ [(id, c)] })),
         .ret (some m)) := by
      simp only [consumeAttempt, hread, hm]
    refine ⟨?_, mkRedisMsg_id hm⟩
    rw [RedisClient.queue_consumer, queue_consumer_go_step g c _ 2 0 _ rfl, hatt]
  · intro hgr hfind
    have hread : xreadgroupOne (ensureGroup q g) g c =
        .ok (ensureGroup q g, Option.none) := by
      simp only [xreadgroupOne, hgr, hfind]
    have hatt : consumeAttempt q g c =
        (some (ensureGroup q g), .ret Option.none) := by
      simp only [consumeAttempt, hread]
    rw [RedisClient.queue_consumer, queue_consumer_go_step g c _ 2 0 _ rfl, hatt]
  · intro hall
    rw [RedisClient.queue_consumer,
      queue_consumer_go_err g c errAt 2 0 q s (hall 0 (by omega)),
      queue_consumer_go_err g c errAt 1 1 q s (hall 1 (by omega)),
      queue_consumer_go_err g c errAt 0 2 q s (hall 2 (by omega))]
    rfl

/-- Witness for C7: a stream holding one well-formed entry delivers it as
a handle with its id and decoded message. -/
theorem c7_queue_consumer_witness :
    mkRedisMsg 1 [("message", "1")] = some ⟨1, PyVal.int 1⟩ ∧
    (RedisClient.queue_consumer (some ⟨[(1, [("message", "1")])], 2, []⟩)
      "g" "c" (fun _ => Option.none)).2.1 = some ⟨1, PyVal.int 1⟩ := by
  refine ⟨rfl, ?_⟩
  have h := (c7_queue_consumer (some ⟨[(1, [("message", "1")])], 2, []⟩) "g" "c"
    (fun _ => Option.none) ⟨"g", 0, []⟩ 1 [("message", "1")]
    ⟨1, PyVal.int 1⟩ "x").2.2.1 rfl rfl rfl
  rw [h.1]

theorem xack_entries (st : RStream) (g : String) (id : Nat) :
    (xack st g id).1.entries = st.entries := by
  cases h : st.findGroup g with
  | none => simp only [xack, h]
  | some gr => simp only [xack, h, groupUpdate]

theorem find_map_groups (l : List StreamGroup) (g : String)
    (f : StreamGroup → StreamGroup) (hf : ∀ gr, (f gr).name = gr.name) :
    (l.map (fun gr => if gr.name = g then f gr else gr)).find?
        (fun gr => gr.name = g) =
      (l.find? (fun gr => gr.name = g)).map f := by
  induction l with
  | nil => rfl
  | cons gr t ih =>
    by_cases h : gr.name = g
    · simp only [List.map_cons, if_pos h]
      rw [List.find?_cons_of_pos, List.find?_cons_of_pos]
      · rfl
      · simp [h]
      · simp [hf gr, h]
    · simp only [List.map_cons, if_neg h]
      rw [List.find?_cons_of_neg, List.find?_cons_of_neg, ih]
      · simp [h]
      · simp [h]

theorem findGroup_groupUpdate (st : RStream) (g : String)
    (f : StreamGroup → StreamGroup) (hf : ∀ gr, (f gr).name = gr.name) :
    (groupUpdate st g f).findGroup g = (st.findGroup g).map f :=
  find_map_groups st.groups g f hf

theorem requeue_go_err (g : String) (msgId : Nat) (errAt : Nat → Option String)
    (fuel k : Nat) (q : Option RStream) (s : String) (h : errAt k = some s) :
    RedisClient.requeue_msg_go g msgId errAt (fuel + 1) k q =
      RedisClient.requeue_msg_go g msgId errAt fuel (k + 1) q := by
  conv_lhs => rw [RedisClient.requeue_msg_go]
  rw [h]

theorem requeue_go_empty (g : String) (msgId : Nat) (errAt : Nat → Option String)
    (fuel k : Nat) (q : Option RStream) (h : errAt k = Option.none)
    (h2 : xrange1 q msgId = []) :
    RedisClient.requeue_msg_go g msgId errAt (fuel + 1) k q =
      RedisClient.requeue_msg_go g msgId errAt fuel (k + 1) q := by
  conv_lhs => rw [RedisClient.requeue_msg_go]
  rw [h, h2]

theorem requeue_go_hit (g : String) (msgId : Nat) (errAt : Nat → Option String)
    (fuel k : Nat) (q : Option RStream) (id : Nat) (pl : List (String × String))
    (tl : List (Nat × List (String × String))) (h : errAt k = Option.none)
    (h2 : xrange1 q msgId = (id, pl) :: tl) :
    RedisClient.requeue_msg_go g msgId errAt (fuel + 1) k q =
      (some (xack (xadd q pl) g msgId).1, true) := by
  conv_lhs => rw [RedisClient.requeue_msg_go]
  rw [h, h2]

theorem requeue_futile (g : String) (msgId : Nat) (errAt : Nat → Option String)
    (q : Option RStream) (h2 : xrange1 q msgId = []) :
    ∀ fuel k, RedisClient.requeue_msg_go g msgId errAt fuel k q = (q, false) := by
  intro fuel
  induction fuel with
  | zero => intro k; rfl
  | succ n ih =>
    intro k
    cases h : errAt k with
    | some s =>
      rw [requeue_go_err g msgId errAt n k q s h]
      exact ih (k + 1)
    | none =>
      rw [requeue_go_empty g msgId errAt n k q h h2]
      exact ih (k + 1)

theorem requeue_go_true (g : String) (msgId : Nat) (errAt : Nat → Option String) :
    ∀ fuel k q q2, RedisClient.requeue_msg_go g msgId errAt fuel k q = (q2, true) →
      ∃ pl tl, xrange1 q msgId = (msgId, pl) :: tl ∧
        q2 = some (xack (xadd q pl) g msgId).1 := by
  intro fuel
  induction fuel with
  | zero =>
    intro k q q2 h
    rw [RedisClient.requeue_msg_go] at h
    exact absurd (congrArg Prod.snd h) (by simp)
  | succ n ih =>
    intro k q q2 h
    cases he : errAt k with
    | some s =>
      rw [requeue_go_err g msgId errAt n k q s he] at h
      exact ih (k + 1) q q2 h
    | none =>
      cases hx : xrange1 q msgId with
      | nil =>
        rw [requeue_go_empty g msgId errAt n k q he hx] at h
        rw [← hx]
        exact ih (k + 1) q q2 h
      | cons hd tl =>
        cases hd with
        | mk id pl =>
          have hid : id = msgId := by
            have hmem : (id, pl) ∈ xrange1 q msgId := by
              rw [hx]
              exact List.mem_cons_self _ _
            unfold xrange1 at hmem
            cases q with
            | none => simp at hmem
            | some st =>
              have hp := List.of_mem_filter hmem
              simpa using hp
          rw [requeue_go_hit g msgId errAt n k q id pl tl he hx] at h
          have hq2 : q2 = some (xack (xadd q pl) g msgId).1 := by
            have h1 := congrArg Prod.fst h
            simpa using h1.symm
          exact ⟨pl, tl, by rw [hid], hq2⟩

theorem pendingOf_xack (st : RStream) (g : String) (id : Nat) (c2 : String) :
    (id, c2) ∉ pendingOf (some (xack st g id).1) g := by
  intro hmem
  cases hfg : st.findGroup g with
  | none =>
    have hx : (xack st g id).1 = st := by
      simp only [xack, hfg]
    rw [hx] at hmem
    simp only [pendingOf, hfg] at hmem
    simp at hmem
  | some gr =>
    have hx : (xack st g id).1 = groupUpdate st g (fun gr2 =>
        { gr2 with pending := gr2.pending.filter (fun p => !(p.1 = id)) }) := by
      simp only [xack, hfg]
    rw [hx] at hmem
    have hfind := findGroup_groupUpdate st g
      (fun gr2 => { gr2 with pending := gr2.pending.filter (fun p => !(p.1 = id)) })
      (fun _ => rfl)
    rw [hfg, Option.map_some'] at hfind
    simp only [pendingOf, hfind] at hmem
    have hp := List.of_mem_filter hmem
    simp at hp

/-- C8: `requeue_msg` on a present entry re-appends that entry's original
payload verbatim as a new stream entry and acknowledges the old entry for
the group, returning true; whenever it returns true it has done exactly
that; there are at most 3 attempts, and it returns false with the store
unchanged when the entry id is absent from the stream or every attempt
raises. -/
theorem c8_requeue_msg (q : Option RStream) (g : String) (msgId : Nat)
    (errAt : Nat → Option String) (st : RStream) (pl : List (String × String))
    (tl : List (Nat × List (String × String))) (q2 : Option RStream) (s : String) :
    (q = some st → errAt 0 = Option.none → xrange1 q msgId = (msgId, pl) :: tl →
      RedisClient.requeue_msg q g msgId errAt =
        (some (xack (xadd q pl) g msgId).1, true) ∧
      (xack (xadd q pl) g msgId).1.entries = st.entries ++ [(st.nextId, pl)] ∧
      (∀ c2, (msgId, c2) ∉ pendingOf (some (xack (xadd q pl) g msgId).1) g)) ∧
    (RedisClient.requeue_msg q g msgId errAt = (q2, true) →
      ∃ pl2 tl2, xrange1 q msgId = (msgId, pl2) :: tl2 ∧
        q2 = some (xack (xadd q pl2) g msgId).1) ∧
    (xrange1 q msgId = [] →
      RedisClient.requeue_msg q g msgId errAt = (q, false)) ∧
    ((∀ j, j < 3 → errAt j = some s) →
      RedisClient.requeue_msg q g msgId errAt = (q, false)) := by
  refine ⟨?_, ?_, ?_, ?_⟩
  · intro hq h0 hx
    refine ⟨?_, ?_, ?_⟩
    · rw [RedisClient.requeue_msg,
        requeue_go_hit g msgId errAt 2 0 q msgId pl tl h0 hx]
    · rw [xack_entries]
      rw [hq]
      rfl
    · exact fun c2 => pendingOf_xack (xadd q pl) g msgId c2
  · intro h
    exact requeue_go_true g msgId errAt 3 0 q q2 h
  · intro hx
    rw [RedisClient.requeue_msg, requeue_futile g msgId errAt q hx 3 0]
  · intro hall
    rw [RedisClient.requeue_msg,
      requeue_go_err g msgId errAt 2 0 q s (hall 0 (by omega)),
      requeue_go_err g msgId errAt 1 1 q s (hall 1 (by omega)),
      requeue_go_err g msgId errAt 0 2 q s (hall 2 (by omega))]
    rfl

/-- Witness for C8: a stream with one pending entry is requeued: the
payload reappears verbatim as a new entry and the old id is acknowledged. -/
theorem c8_requeue_msg_witness :
    xrange1 (some ⟨[(1, [("message", "1")])], 2, [⟨"g", 1, [(1, "c")]⟩]⟩) 1 =
      [(1, [("message", "1")])] ∧
    (RedisClient.requeue_msg
      (some ⟨[(1, [("message", "1")])], 2, [⟨"g", 1, [(1, "c")]⟩]⟩)
      "g" 1 (fun _ => Option.none)).2 = true ∧
    (xack (xadd (some ⟨[(1, [("message", "1")])], 2, [⟨"g", 1, [(1, "c")]⟩]⟩)
      [("message", "1")]) "g" 1).1.entries =
      [(1, [("message", "1")]), (2, [("message", "1")])] := by
  refine ⟨rfl, ?_, ?_⟩
  · have h := ((c8_requeue_msg
      (some ⟨[(1, [("message", "1")])], 2, [⟨"g", 1, [(1, "c")]⟩]⟩) "g" 1
      (fun _ => Option.none) ⟨[(1, [("message", "1")])], 2, [⟨"g", 1, [(1, "c")]⟩]⟩
      [("message", "1")] [] Option.none "x").1 rfl rfl rfl).1
    rw [h]
  · have h := ((c8_requeue_msg
      (some ⟨[(1, [("message", "1")])], 2, [⟨"g", 1, [(1, "c")]⟩]⟩) "g" 1
      (fun _ => Option.none) ⟨[(1, [("message", "1")])], 2, [⟨"g", 1, [(1, "c")]⟩]⟩
      [("message", "1")] [] Option.none "x").1 rfl rfl rfl).2.1
    rw [h]
    rfl


theorem ensureGroup_of_found {st : RStream} {g : String} {gr : StreamGroup}
    (h : st.findGroup g = some gr) : ensureGroup (some st) g = st := by
  have h2 : st.groups.find? (fun gr2 => gr2.name = g) = some gr := h
  have hmem : gr ∈ st.groups := List.mem_of_find?_eq_some h2
  have hp := List.find?_some h2
  have hany : st.groups.any (fun gr2 => gr2.name = g) = true :=
    List.any_eq_true.mpr ⟨gr, hmem, hp⟩
  simp [ensureGroup, hany]

theorem pendInv_mem {g c : String} {id : Nat} {q : Option RStream}
    (h : PendInv g c id q) : (id, c) ∈ pendingOf q g := by
  obtain ⟨gr, hfg, hmem, _⟩ := h
  cases q with
  | none => simp [findGroupOf] at hfg
  | some st =>
    simp only [findGroupOf] at hfg
    simpa [pendingOf, hfg] using hmem

theorem mkRedisMsg_decode {id : Nat} {pl : List (String × String)}
    {m : RedisMsg} (h : mkRedisMsg id pl = some m) :
    ∃ fv, pl.find? (fun p => p.1 = "message") = some fv ∧
      json_loads fv.2 = some m.message ∧ m.msg_id = id := by
  unfold mkRedisMsg at h
  cases hf : pl.find? (fun p => p.1 = "message") with
  | none => rw [hf] at h; exact absurd h (by simp)
  | some fv =>
    rw [hf] at h
    simp only [Option.map_some'] at h
    rcases Option.map_eq_some'.mp h with ⟨mm, hmm, heq⟩
    subst heq
    exact ⟨fv, rfl, hmm, rfl⟩

theorem consumeAttempt_decode {q : Option RStream} {g c : String}
    {q2 : Option RStream} {m : RedisMsg}
    (h : consumeAttempt q g c = (q2, .ret (some m))) :
    ∃ pl fv, (m.msg_id, pl) ∈ entriesOf q2 ∧
      pl.find? (fun p => p.1 = "message") = some fv ∧
      json_loads fv.2 = some m.message := by
  cases hfg : (ensureGroup q g).findGroup g with
  | none =>
    have hatt : consumeAttempt q g c = (some (ensureGroup q g), .err "NOGROUP") := by
      simp only [consumeAttempt, xreadgroupOne, hfg]
    rw [hatt] at h
    have := congrArg Prod.snd h
    simp at this
  | some gr =>
    cases hfind : (ensureGroup q g).entries.find?
        (fun en => gr.lastDeliveredId < en.1) with
    | none =>
      have hatt : consumeAttempt q g c = (some (ensureGroup q g), .ret Option.none) := by
        simp only [consumeAttempt, xreadgroupOne, hfg, hfind]
      rw [hatt] at h
      have := congrArg Prod.snd h
      simp at this
    | some en =>
      obtain ⟨id, pl⟩ := en
      cases hmk : mkRedisMsg id pl with
      | none =>
        have hatt : consumeAttempt q g c = (some (groupUpdate (ensureGroup q g) g (fun gr2 => { gr2 with lastDeliveredId := id, pending := gr2.pending ++ [(id, c)] })), .err "message decode") := by
          simp only [consumeAttempt, xreadgroupOne, hfg, hfind, hmk]
        rw [hatt] at h
        have := congrArg Prod.snd h
        simp at this
      | some m2 =>
        have hatt : consumeAttempt q g c = (some (groupUpdate (ensureGroup q g) g (fun gr2 => { gr2 with lastDeliveredId := id, pending := gr2.pending ++ [(id, c)] })), .ret (some m2)) := by
          simp only [consumeAttempt, xreadgroupOne, hfg, hfind, hmk]
        rw [hatt] at h
        rw [Prod.mk.injEq] at h
        obtain ⟨h1, h2⟩ := h
        have hmm : m2 = m := by simpa using h2
        obtain ⟨fv, hfv, hjl, hidm⟩ := mkRedisMsg_decode hmk
        refine ⟨pl, fv, ?_, hfv, ?_⟩
        · rw [← h1]
          show (m.msg_id, pl) ∈ (ensureGroup q g).entries
          rw [← hmm, hidm]
          exact List.mem_of_find?_eq_some hfind
        · rw [← hmm]
          exact hjl

theorem queue_consumer_go_decode (g c : String) (errAt : Nat → Option String) :
    ∀ (fuel used : Nat) (q : Option RStream) (m : RedisMsg),
      (RedisClient.queue_consumer_go g c errAt fuel used q).2.1 = some m →
      ∃ pl fv,
        (m.msg_id, pl) ∈
          entriesOf (RedisClient.queue_consumer_go g c errAt fuel used q).1 ∧
        pl.find? (fun p => p.1 = "message") = some fv ∧
        json_loads fv.2 = some m.message := by
  intro fuel
  induction fuel with
  | zero =>
    intro used q m hm
    exact absurd hm (by simp [RedisClient.queue_consumer_go])
  | succ n ih =>
    intro used q m hm
    cases he : errAt used with
    | some s =>
      rw [queue_consumer_go_err g c errAt n used q s he] at hm ⊢
      exact ih (used + 1) q m hm
    | none =>
      rw [queue_consumer_go_step g c errAt n used q he] at hm ⊢
      cases hca : consumeAttempt q g c with
      | mk q2 res =>
        rw [hca] at hm
        cases res with
        | ret r =>
          have hr : r = some m := hm
          rw [hr] at hca
          exact consumeAttempt_decode hca
        | err e =>
          exact ih (used + 1) q2 m hm

theorem consumeAttempt_pendInv {g c2 : String} {id : Nat} {q : Option RStream}
    (c : String) (h : PendInv g c2 id q) :
    PendInv g c2 id (consumeAttempt q g c).1 ∧
    ∀ m, (consumeAttempt q g c).2 = AttemptRes.ret (some m) → m.msg_id ≠ id := by
  obtain ⟨gr, hfg, hpend, hle⟩ := h
  cases q with
  | none => simp [findGroupOf] at hfg
  | some st =>
    simp only [findGroupOf] at hfg
    have hens : ensureGroup (some st) g = st := ensureGroup_of_found hfg
    cases hfind : st.entries.find? (fun en => gr.lastDeliveredId < en.1) with
    | none =>
      have hatt : consumeAttempt (some st) g c = (some st, .ret Option.none) := by
        simp only [consumeAttempt, hens, xreadgroupOne, hfg, hfind]
      rw [hatt]
      refine ⟨⟨gr, hfg, hpend, hle⟩, ?_⟩
      intro m hm
      exact absurd hm (by simp)
    | some en =>
      obtain ⟨id2, pl⟩ := en
      have hlt : gr.lastDeliveredId < id2 := by
        have hp := List.find?_some hfind
        simpa using hp
      have hfind2 : (groupUpdate st g (fun gr2 => { gr2 with lastDeliveredId := id2, pending := gr2.pending ++ [(id2, c)] })).findGroup g = some { gr with lastDeliveredId := id2, pending := gr.pending ++ [(id2, c)] } := by
        rw [findGroup_groupUpdate st g (fun gr2 => { gr2 with lastDeliveredId := id2, pending := gr2.pending ++ [(id2, c)] }) (fun _ => rfl), hfg, Option.map_some']
      have hPI : PendInv g c2 id (some (groupUpdate st g (fun gr2 => { gr2 with lastDeliveredId := id2, pending := gr2.pending ++ [(id2, c)] }))) := by
        refine ⟨_, hfind2, ?_, ?_⟩
        · exact List.mem_append_left _ hpend
        · show id ≤ id2
          omega
      cases hmk : mkRedisMsg id2 pl with
      | some m2 =>
        have hatt : consumeAttempt (some st) g c = (some (groupUpdate st g (fun gr2 => { gr2 with lastDeliveredId := id2, pending := gr2.pending ++ [(id2, c)] })), .ret (some m2)) := by
          simp only [consumeAttempt, hens, xreadgroupOne, hfg, hfind, hmk]
        rw [hatt]
        refine ⟨hPI, ?_⟩
        intro m hm
        have hmm : m2 = m := by simpa using hm
        rw [← hmm, mkRedisMsg_id hmk]
        omega
      | none =>
        have hatt : consumeAttempt (some st) g c = (some (groupUpdate st g (fun gr2 => { gr2 with lastDeliveredId := id2, pending := gr2.pending ++ [(id2, c)] })), .err "message decode") := by
          simp only [consumeAttempt, hens, xreadgroupOne, hfg, hfind, hmk]
        rw [hatt]
        refine ⟨hPI, ?_⟩
        intro m hm
        exact absurd hm (by simp)

theorem queue_consumer_go_pendInv (g c c2 : String) (id : Nat)
    (errAt : Nat → Option String) :
    ∀ (fuel used : Nat) (q : Option RStream), PendInv g c2 id q →
      PendInv g c2 id (RedisClient.queue_consumer_go g c errAt fuel used q).1 ∧
      ∀ m, (RedisClient.queue_consumer_go g c errAt fuel used q).2.1 = some m →
        m.msg_id ≠ id := by
  intro fuel
  induction fuel with
  | zero =>
    intro used q h
    refine ⟨h, ?_⟩
    intro m hm
    exact absurd hm (by simp [RedisClient.queue_consumer_go])
  | succ n ih =>
    intro used q h
    cases he : errAt used with
    | some s =>
      rw [queue_consumer_go_err g c errAt n used q s he]
      exact ih (used + 1) q h
    | none =>
      rw [queue_consumer_go_step g c errAt n used q he]
      obtain ⟨hPI, hID⟩ := consumeAttempt_pendInv c h
      cases hca : consumeAttempt q g c with
      | mk q2 res =>
        rw [hca] at hPI hID
        cases res with
        | ret r =>
          refine ⟨hPI, ?_⟩
          intro m hm
          have hr : r = some m := hm
          exact hID m (by rw [hr])
        | err e =>
          exact ih (used + 1) q2 hPI

/-- C10 (counterexample): on a stream whose first entry lacks a `message`
field and whose second entry is well-formed, `queue_consumer` does NOT
return nothing and does NOT exhaust its 3 attempts: the malformed entry
makes the first attempt raise, and the second attempt returns a handle for
the later entry, while the malformed entry is left pending. -/
theorem c10_consume_malformed_counterexample :
    mkRedisMsg 1 [("x", "oops")] = Option.none ∧
    (RedisClient.queue_consumer witC10q "g" "c" (fun _ => Option.none)).2.1 =
      some ⟨2, PyVal.int 1⟩ ∧
    (RedisClient.queue_consumer witC10q "g" "c" (fun _ => Option.none)).2.2 = 2 ∧
    pendingOf (RedisClient.queue_consumer witC10q "g" "c" (fun _ => Option.none)).1
      "g" = [(1, "c"), (2, "c")] :=
  ⟨rfl, rfl, rfl, rfl⟩

/-- C10 (amended): every handle returned by `queue_consumer` carries the
JSON-decoded value of some final-state entry's `message` field; and when the
first delivered entry's payload lacks a decodable `message` field, that entry
stays in the group's pending set at the end while no returned handle refers
to it — but `queue_consumer` need not return nothing, since a later
well-formed entry can still yield a handle on a retry. -/
theorem c10_consume_decode_and_pending :
    (∀ (q : Option RStream) (g c : String) (errAt : Nat → Option String)
      (m : RedisMsg),
      (RedisClient.queue_consumer q g c errAt).2.1 = some m →
      ∃ pl fv,
        (m.msg_id, pl) ∈ entriesOf (RedisClient.queue_consumer q g c errAt).1 ∧
        pl.find? (fun p => p.1 = "message") = some fv ∧
        json_loads fv.2 = some m.message) ∧
    (∀ (q : Option RStream) (g c : String) (errAt : Nat → Option String)
      (gr : StreamGroup) (id : Nat) (pl : List (String × String)),
      errAt 0 = Option.none →
      (ensureGroup q g).findGroup g = some gr →
      (ensureGroup q g).entries.find? (fun en => gr.lastDeliveredId < en.1) =
        some (id, pl) →
      mkRedisMsg id pl = Option.none →
      (id, c) ∈ pendingOf (RedisClient.queue_consumer q g c errAt).1 g ∧
      ∀ m, (RedisClient.queue_consumer q g c errAt).2.1 = some m →
        m.msg_id ≠ id) := by
  constructor
  · intro q g c errAt m hm
    exact queue_consumer_go_decode g c errAt 3 0 q m hm
  · intro q g c errAt gr id pl h0 hfg hfind hmk
    have hatt : consumeAttempt q g c = (some (groupUpdate (ensureGroup q g) g (fun gr2 => { gr2 with lastDeliveredId := id, pending := gr2.pending ++ [(id, c)] })), .err "message decode") := by
      simp only [consumeAttempt, xreadgroupOne, hfg, hfind, hmk]
    have hfind2 : (groupUpdate (ensureGroup q g) g (fun gr2 => { gr2 with lastDeliveredId := id, pending := gr2.pending ++ [(id, c)] })).findGroup g = some { gr with lastDeliveredId := id, pending := gr.pending ++ [(id, c)] } := by
      rw [findGroup_groupUpdate (ensureGroup q g) g (fun gr2 => { gr2 with lastDeliveredId := id, pending := gr2.pending ++ [(id, c)] }) (fun _ => rfl), hfg, Option.map_some']
    have hPI : PendInv g c id (some (groupUpdate (ensureGroup q g) g (fun gr2 => { gr2 with lastDeliveredId := id, pending := gr2.pending ++ [(id, c)] }))) := by
      refine ⟨_, hfind2, ?_, ?_⟩
      · show (id, c) ∈ gr.pending ++ [(id, c)]
        exact List.mem_append_right _ (by simp)
      · show id ≤ id
        exact Nat.le_refl id
    have hq : RedisClient.queue_consumer q g c errAt =
        RedisClient.queue_consumer_go g c errAt 2 1 (some (groupUpdate (ensureGroup q g) g (fun gr2 => { gr2 with lastDeliveredId := id, pending := gr2.pending ++ [(id, c)] }))) := by
      show RedisClient.queue_consumer_go g c errAt 3 0 q = _
      conv_lhs => rw [queue_consumer_go_step g c errAt 2 0 q h0, hatt]
    obtain ⟨hPI2, hID⟩ :=
      queue_consumer_go_pendInv g c c id errAt 2 1
        (some (groupUpdate (ensureGroup q g) g (fun gr2 => { gr2 with lastDeliveredId := id, pending := gr2.pending ++ [(id, c)] }))) hPI
    refine ⟨?_, ?_⟩
    · rw [hq]
      exact pendInv_mem hPI2
    · intro m hm
      rw [hq] at hm
      exact hID m hm

/-- Witness: on the concrete C10 stream the amended theorem instantiates to
the handle for entry 2 decoding its `message` field, and to the malformed
entry 1 staying pending with the returned handle not referring to it. -/
theorem c10_consume_decode_and_pending_witness :
    (∃ pl fv,
      ((2 : Nat), pl) ∈
        entriesOf (RedisClient.queue_consumer witC10q "g" "c" (fun _ => Option.none)).1 ∧
      pl.find? (fun p => p.1 = "message") = some fv ∧
      json_loads fv.2 = some (PyVal.int 1)) ∧
    (1, "c") ∈
      pendingOf (RedisClient.queue_consumer witC10q "g" "c" (fun _ => Option.none)).1 "g" ∧
    (2 : Nat) ≠ 1 :=
  ⟨c10_consume_decode_and_pending.1 witC10q "g" "c" (fun _ => Option.none)
      ⟨2, PyVal.int 1⟩ rfl,
   (c10_consume_decode_and_pending.2 witC10q "g" "c" (fun _ => Option.none)
      ⟨"g", 0, []⟩ 1 [("x", "oops")] rfl rfl rfl rfl).1,
   (c10_consume_decode_and_pending.2 witC10q "g" "c" (fun _ => Option.none)
      ⟨"g", 0, []⟩ 1 [("x", "oops")] rfl rfl rfl rfl).2 ⟨2, PyVal.int 1⟩ rfl⟩
